import Mathlib

/-!
# Verification of the `cmpe.py` conversion and inspection utilities

This file gives a shallow embedding, in Lean 4, of the functions of the
`cmpe.py` module (bit/binary conversions, bit-position enumeration,
size parsing and reporting, byte swapping, and the small ratio solver),
together with theorems settling the specification claims about them.

Modelling conventions:
* Python's arbitrary-precision non-negative integers are `Nat`; values that
  may be negative are `Int`.  Python `>>`/`&`/`|`/`<<` on non-negative
  integers are `Nat.shiftRight`/`Nat.land`/`Nat.lor`/`Nat.shiftLeft`.
* Python strings are `List Char` (ASCII fragment; every string the claims
  touch is ASCII).
* Python floats are modelled as exact rationals `ℚ`; the numeric claims in
  scope compare values that these functions compute by exact field
  arithmetic on small binary fractions.
* A Python function that can raise is modelled with `Option`/`Except`,
  `none`/`.error` standing for the raised exception.
-/

namespace Cmpe

/-! ## Python `int(s, 2)` (used by `bitrev`, `bin2int`, `bin`)

`int(s, 2)` strips leading/trailing whitespace, accepts an optional sign,
an optional `0b`/`0B` prefix (optionally followed by one underscore), and
then base-2 digits in which single underscores may appear between digits.
Anything else raises `ValueError` (modelled as `none`). -/

/-- ASCII whitespace accepted (and stripped) by Python's `int(s, base)`. -/
def isPySpace (c : Char) : Bool :=
  c = ' ' || c = '\t' || c = '\n' || c = '\r' || c = '\x0b' || c = '\x0c'

/-- A base-2 digit character. -/
def isBinDigitChar (c : Char) : Bool := c = '0' || c = '1'

/-- Numeric value of a base-2 digit character. -/
def binDigitVal (c : Char) : Nat := if c = '1' then 1 else 0

/-- Continuation of the digit run of `int(s, 2)`: digits with single
underscores allowed between digits, never doubled and never trailing. -/
def parseBinTail : List Char → Nat → Option Nat
  | [], acc => some acc
  | c :: rest, acc =>
    if c = '_' then
      match rest with
      | [] => none
      | c2 :: rest2 =>
        if isBinDigitChar c2 then parseBinTail rest2 (acc * 2 + binDigitVal c2) else none
    else if isBinDigitChar c then parseBinTail rest (acc * 2 + binDigitVal c) else none

/-- Start of the digit run of `int(s, 2)`: at least one digit, which must not
be an underscore. -/
def parseBinDigitsStart (l : List Char) : Option Nat :=
  match l with
  | [] => none
  | c :: rest => if isBinDigitChar c then parseBinTail rest (binDigitVal c) else none

/-- Drop a single underscore, as allowed right after a `0b`/`0B` prefix. -/
def dropOneUnderscore (l : List Char) : List Char :=
  match l with
  | c :: rest => if c = '_' then rest else l
  | [] => l

/-- Body of `int(s, 2)` after sign handling: optional `0b`/`0B` prefix
(optionally followed by one underscore), then the digit run. -/
def pyBinBody (l : List Char) : Option Nat :=
  match l with
  | c0 :: c1 :: rest =>
    if c0 = '0' ∧ (c1 = 'b' ∨ c1 = 'B') then parseBinDigitsStart (dropOneUnderscore rest)
    else parseBinDigitsStart l
  | _ => parseBinDigitsStart l

/-- Sign handling of `int(s, 2)`, applied to the whitespace-stripped
string: an optional single `+`/`-` in front of `pyBinBody`. -/
def pyIntSigned (t : List Char) : Option Int :=
  match t with
  | [] => none
  | c :: rest =>
    if c = '+' then (pyBinBody rest).map (fun n => (n : Int))
    else if c = '-' then (pyBinBody rest).map (fun n => -(n : Int))
    else (pyBinBody (c :: rest)).map (fun n => (n : Int))

/-- Python `int(s, 2)`: strip whitespace at both ends, optional sign,
then `pyBinBody`.  `none` models the `ValueError` raised on malformed
input. -/
def pyIntBase2 (s : List Char) : Option Int :=
  pyIntSigned (((s.dropWhile isPySpace).reverse.dropWhile isPySpace).reverse)

/-! ## `int2bin`, `bitrev`, `bin2int` -/

/-- Fuel-driven worker for `hexDigits` (structural recursion on the fuel, so
that the kernel can evaluate it; `fuel ≥ v` always suffices because the
argument drops by a factor of 16 at every step). -/
def hexDigitsGo (fuel v : Nat) : Nat :=
  match fuel with
  | 0 => 1
  | fuel + 1 => if v < 16 then 1 else hexDigitsGo fuel (v / 16) + 1

/-- Number of hex digits of `v`, i.e. `len(_rawhex(hex(val)))` in the
source: `hex` prints at least one digit, so `hexDigits 0 = 1`. -/
def hexDigits (v : Nat) : Nat := hexDigitsGo v v

theorem hexDigitsGo_congr :
    ∀ f1 f2 v : Nat, v ≤ f1 → v ≤ f2 → hexDigitsGo f1 v = hexDigitsGo f2 v := by
  intro f1
  induction f1 with
  | zero =>
    intro f2 v h1 _
    interval_cases v
    cases f2
    · rfl
    · simp [hexDigitsGo]
  | succ f ih =>
    intro f2 v h1 h2
    by_cases hv : v < 16
    · cases f2 with
      | zero =>
        have hv0 : v = 0 := by omega
        subst hv0
        simp [hexDigitsGo]
      | succ f2 => simp [hexDigitsGo, hv]
    · have h16 : 16 ≤ v := by omega
      cases f2 with
      | zero => omega
      | succ f2 =>
        have hd : v / 16 < v := Nat.div_lt_self (by omega) (by omega)
        simp only [hexDigitsGo, if_neg hv]
        exact congrArg (· + 1) (ih f2 (v / 16) (by omega) (by omega))

/-- The recurrence satisfied by `hexDigits`: one digit below 16, otherwise
one more digit than `v / 16`. -/
theorem hexDigits_eq (v : Nat) :
    hexDigits v = if v < 16 then 1 else hexDigits (v / 16) + 1 := by
  by_cases hv : v < 16
  · cases v <;> simp [hexDigits, hexDigitsGo, hv]
  · have h16 : 16 ≤ v := by omega
    obtain ⟨f, rfl⟩ : ∃ f, v = f + 1 := ⟨v - 1, by omega⟩
    have hd : (f + 1) / 16 < f + 1 := Nat.div_lt_self (by omega) (by omega)
    simp only [hexDigits, hexDigitsGo, if_neg hv]
    exact congrArg (· + 1)
      (hexDigitsGo_congr f ((f + 1) / 16) ((f + 1) / 16) (by omega) (by omega))

/-- The bit list built by the loop of `int2bin`: for `x` in
`range(0, num_bits)`, insert `(val >> x) & 0x1` at the front.  When
`num_bits` is `0` the width is inferred as `len(_rawhex(hex(val))) * 4`. -/
def int2binBits (val : Nat) (numBits : Nat) : List Nat :=
  let n := if numBits = 0 then hexDigits val * 4 else numBits
  (List.range n).foldl (fun acc x => ((val >>> x) &&& 1) :: acc) []

/-- The character `"%d" % bit` for a bit value (always `0` or `1`). -/
def bitChar (b : Nat) : Char := if b = 1 then '1' else '0'

/-- `int2bin(val, num_bits=0)`: the binary string (MSB first). -/
def int2bin (val : Nat) (numBits : Nat) : List Char :=
  (int2binBits val numBits).map bitChar

/-- `bitrev(val, bits)`: take the inferred-width binary string of `val`,
left-pad with `'0'` to length `bits` if the lengths differ (Python's
`"0" * n` is empty for negative `n`, so a longer string is left as is),
reverse it character by character, and reparse with `int(revs, 2)`. -/
def bitrev (val : Nat) (bits : Nat) : Option Int :=
  let binstr := int2bin val 0
  let padded :=
    if binstr.length ≠ bits then List.replicate (bits - binstr.length) '0' ++ binstr
    else binstr
  let revs := padded.foldl (fun acc c => c :: acc) []
  pyIntBase2 revs

/-- `bin2int(binstr)`: `int(binstr, 2)`. -/
def bin2int (binstr : List Char) : Option Int := pyIntBase2 binstr

/-! ## Semantic helpers (not part of the source; used to state and prove
facts about the definitions above) -/

/-- Value of a most-significant-bit-first digit list. -/
def parseBinNat (l : List Nat) : Nat := l.foldl (fun a d => a * 2 + d) 0

/-- Value of a least-significant-bit-first digit list. -/
def lval (l : List Nat) : Nat := l.foldr (fun d a => d + 2 * a) 0

/-- The little-endian bit list of `v` at width `n`. -/
def littleBits (v : Nat) (n : Nat) : List Nat :=
  (List.range n).map (fun x => v / 2 ^ x % 2)

/-- The value `bitrev` computes before any padding questions: the integer
whose width-`W` bit string is the reverse of the width-`W` bit string of
`v`. -/
def revAt (v W : Nat) : Nat := parseBinNat (littleBits v W)

/-! ### Basic facts about the helpers -/

theorem foldl_cons_rev {α β : Type} (f : α → β) :
    ∀ (l : List α) (acc : List β),
      l.foldl (fun acc x => f x :: acc) acc = (l.map f).reverse ++ acc := by
  intro l
  induction l with
  | nil => intro acc; rfl
  | cons a t ih =>
    intro acc
    simp only [List.foldl_cons, List.map_cons, List.reverse_cons, ih]
    simp

theorem int2binBits_eq (val numBits : Nat) :
    int2binBits val numBits =
      (littleBits val (if numBits = 0 then hexDigits val * 4 else numBits)).reverse := by
  unfold int2binBits littleBits
  rw [foldl_cons_rev]
  simp [Nat.shiftRight_eq_div_pow, Nat.and_one_is_mod]

theorem foldl_cons_self (l : List Char) :
    l.foldl (fun acc c => c :: acc) ([] : List Char) = l.reverse := by
  have h := foldl_cons_rev (fun c : Char => c) l []
  rw [List.map_id_fun'] at h
  rw [h, List.append_nil]
  rfl

theorem parseBinNat_foldl (l : List Nat) :
    ∀ acc : Nat, l.foldl (fun a d => a * 2 + d) acc = acc * 2 ^ l.length + parseBinNat l := by
  induction l with
  | nil => intro acc; simp [parseBinNat]
  | cons d t ih =>
    intro acc
    have hD : parseBinNat (d :: t) = d * 2 ^ t.length + parseBinNat t := by
      show List.foldl (fun a d => a * 2 + d) (0 * 2 + d) t = _
      rw [ih]
      ring
    simp only [List.foldl_cons, List.length_cons]
    rw [ih, hD]
    ring

theorem parseBinNat_append (l1 l2 : List Nat) :
    parseBinNat (l1 ++ l2) = parseBinNat l1 * 2 ^ l2.length + parseBinNat l2 := by
  unfold parseBinNat
  rw [List.foldl_append]
  exact parseBinNat_foldl l2 (List.foldl (fun a d => a * 2 + d) 0 l1)

theorem parseBinNat_reverse (l : List Nat) : parseBinNat l.reverse = lval l := by
  induction l with
  | nil => rfl
  | cons d t ih =>
    rw [List.reverse_cons, parseBinNat_append, ih]
    show _ = d + 2 * lval t
    simp [parseBinNat]
    ring

theorem parseBinNat_eq_lval_reverse (l : List Nat) : parseBinNat l = lval l.reverse := by
  rw [← parseBinNat_reverse l.reverse, List.reverse_reverse]

theorem lval_lt (l : List Nat) (h : ∀ d ∈ l, d ≤ 1) : lval l < 2 ^ l.length := by
  induction l with
  | nil => simp [lval]
  | cons d t ih =>
    have hd : d ≤ 1 := h d (by simp)
    have ht := ih (fun d hd => h d (by simp [hd]))
    show d + 2 * lval t < 2 ^ (t.length + 1)
    rw [pow_succ]
    omega

theorem lval_div_mod (l : List Nat) (h : ∀ d ∈ l, d ≤ 1) :
    ∀ x : Nat, lval l / 2 ^ x % 2 = l.getD x 0 := by
  induction l with
  | nil => intro x; simp [lval]
  | cons d t ih =>
    intro x
    have hd : d ≤ 1 := h d (by simp)
    have ht : ∀ d ∈ t, d ≤ 1 := fun d hd => h d (by simp [hd])
    cases x with
    | zero =>
      show (d + 2 * lval t) / 2 ^ 0 % 2 = d
      simp [Nat.pow_zero]
      omega
    | succ x =>
      show (d + 2 * lval t) / 2 ^ (x + 1) % 2 = t.getD x 0
      rw [← ih ht x]
      have : (d + 2 * lval t) / 2 ^ (x + 1) = lval t / 2 ^ x := by
        rw [pow_succ, mul_comm (2 ^ x) 2, ← Nat.div_div_eq_div_mul]
        congr 1
        omega
      rw [this]

theorem littleBits_length (v n : Nat) : (littleBits v n).length = n := by
  simp [littleBits]

theorem littleBits_le (v n : Nat) : ∀ d ∈ littleBits v n, d ≤ 1 := by
  intro d hd
  simp only [littleBits, List.mem_map] at hd
  obtain ⟨x, _, rfl⟩ := hd
  omega

theorem littleBits_getD (v n x : Nat) (h : x < n) :
    (littleBits v n).getD x 0 = v / 2 ^ x % 2 := by
  rw [List.getD_eq_getElem _ _ (by simpa [littleBits_length] using h)]
  simp [littleBits]

theorem lval_append_single (l : List Nat) (d : Nat) :
    lval (l ++ [d]) = lval l + d * 2 ^ l.length := by
  induction l with
  | nil => simp [lval]
  | cons a t ih =>
    show a + 2 * lval (t ++ [d]) = a + 2 * lval t + d * 2 ^ (t.length + 1)
    rw [ih, pow_succ]
    ring

theorem lval_littleBits (v n : Nat) : lval (littleBits v n) = v % 2 ^ n := by
  induction n with
  | zero => simp [littleBits, lval, Nat.mod_one]
  | succ n ih =>
    have : littleBits v (n + 1) = littleBits v n ++ [v / 2 ^ n % 2] := by
      simp [littleBits, List.range_succ]
    rw [this, lval_append_single, ih, littleBits_length]
    rw [pow_succ, Nat.mod_mul]
    ring

theorem littleBits_append (v n W : Nat) (hn : v < 2 ^ n) (hW : n ≤ W) :
    littleBits v W = littleBits v n ++ List.replicate (W - n) 0 := by
  induction W with
  | zero =>
    have : n = 0 := by omega
    subst this
    rfl
  | succ W ih =>
    rcases Nat.lt_or_ge n (W + 1) with hlt | hge
    · have hWn : n ≤ W := by omega
      have hbit : v / 2 ^ W % 2 = 0 := by
        have : v < 2 ^ W := lt_of_lt_of_le hn (Nat.pow_le_pow_right (by omega) hWn)
        rw [Nat.div_eq_of_lt this]
      have h1 : littleBits v (W + 1) = littleBits v W ++ [v / 2 ^ W % 2] := by
        simp [littleBits, List.range_succ]
      rw [h1, hbit, ih hWn, List.append_assoc]
      have : W + 1 - n = (W - n) + 1 := by omega
      rw [this, List.replicate_succ']
    · have : n = W + 1 := by omega
      subst this
      simp

theorem littleBits_zero_left (W : Nat) : littleBits 0 W = List.replicate W 0 := by
  rw [List.eq_replicate_iff]
  refine ⟨littleBits_length 0 W, ?_⟩
  intro d hd
  simp only [littleBits, List.mem_map] at hd
  obtain ⟨x, _, rfl⟩ := hd
  simp

theorem lval_replicate_zero (k : Nat) : lval (List.replicate k 0) = 0 := by
  induction k with
  | zero => rfl
  | succ k ih =>
    rw [List.replicate_succ]
    show 0 + 2 * lval (List.replicate k 0) = 0
    rw [ih]

theorem parseBinNat_replicate_zero (k : Nat) : parseBinNat (List.replicate k 0) = 0 := by
  rw [parseBinNat_eq_lval_reverse, List.reverse_replicate, lval_replicate_zero]

/-! ### The Python parser on pure `'0'`/`'1'` strings -/

theorem bitChar_cases {d : Nat} (h : d ≤ 1) : bitChar d = '0' ∨ bitChar d = '1' := by
  interval_cases d
  · left; rfl
  · right; rfl

theorem parseBinTail_digits (l : List Nat) (h : ∀ d ∈ l, d ≤ 1) :
    ∀ acc : Nat,
      parseBinTail (l.map bitChar) acc = some (l.foldl (fun a d => a * 2 + d) acc) := by
  induction l with
  | nil => intro acc; rfl
  | cons d t ih =>
    intro acc
    have hd : d ≤ 1 := h d (by simp)
    have ht : ∀ d ∈ t, d ≤ 1 := fun d hd => h d (by simp [hd])
    interval_cases d
    · rw [List.map_cons, show bitChar 0 = '0' from rfl, parseBinTail.eq_def]
      simp only [List.foldl_cons]
      simp [isBinDigitChar, binDigitVal]
      exact ih ht (acc * 2)
    · rw [List.map_cons, show bitChar 1 = '1' from rfl, parseBinTail.eq_def]
      simp only [List.foldl_cons]
      simp [isBinDigitChar, binDigitVal]
      exact ih ht (acc * 2 + 1)

theorem parseBinDigitsStart_digits (l : List Nat) (h : ∀ d ∈ l, d ≤ 1) (hne : l ≠ []) :
    parseBinDigitsStart (l.map bitChar) = some (parseBinNat l) := by
  cases l with
  | nil => exact absurd rfl hne
  | cons d t =>
    have hd : d ≤ 1 := h d (by simp)
    have ht : ∀ d ∈ t, d ≤ 1 := fun d hd => h d (by simp [hd])
    have hval : binDigitVal (bitChar d) = d := by
      interval_cases d
      · rfl
      · rfl
    have hbd : isBinDigitChar (bitChar d) = true := by
      rcases bitChar_cases hd with hc | hc <;> rw [hc] <;> rfl
    simp only [List.map_cons, parseBinDigitsStart, hbd, if_pos]
    rw [parseBinTail_digits t ht, hval]
    have : parseBinNat (d :: t) = t.foldl (fun a d => a * 2 + d) d := by
      show List.foldl (fun a d => a * 2 + d) (0 * 2 + d) t = _
      rw [Nat.zero_mul, Nat.zero_add]
    rw [this]

theorem pyBinBody_digits (l : List Nat) (h : ∀ d ∈ l, d ≤ 1) (hne : l ≠ []) :
    pyBinBody (l.map bitChar) = some (parseBinNat l) := by
  have hstart := parseBinDigitsStart_digits l h hne
  cases l with
  | nil => exact absurd rfl hne
  | cons d t =>
    cases t with
    | nil => exact hstart
    | cons d1 t1 =>
      have hd1 : d1 ≤ 1 := h d1 (by simp)
      have hcond : ¬(bitChar d = '0' ∧ (bitChar d1 = 'b' ∨ bitChar d1 = 'B')) := by
        rcases bitChar_cases hd1 with hc | hc <;> rw [hc] <;> simp
      simp only [List.map_cons, pyBinBody, if_neg hcond]
      exact hstart

theorem dropWhile_no_space (l : List Nat) (h : ∀ d ∈ l, d ≤ 1) :
    (l.map bitChar).dropWhile isPySpace = l.map bitChar := by
  cases l with
  | nil => rfl
  | cons d t =>
    have hd : d ≤ 1 := h d (by simp)
    have hsp : isPySpace (bitChar d) = false := by
      rcases bitChar_cases hd with hc | hc <;> rw [hc] <;> rfl
    simp [List.dropWhile_cons, hsp]

theorem pyIntSigned_cons (c : Char) (rest : List Char) :
    pyIntSigned (c :: rest)
      = if c = '+' then (pyBinBody rest).map (fun n => (n : Int))
        else if c = '-' then (pyBinBody rest).map (fun n => -(n : Int))
        else (pyBinBody (c :: rest)).map (fun n => (n : Int)) := rfl

theorem pyIntBase2_digits (l : List Nat) (h : ∀ d ∈ l, d ≤ 1) (hne : l ≠ []) :
    pyIntBase2 (l.map bitChar) = some ((parseBinNat l : Nat) : Int) := by
  have hrev : ∀ d ∈ l.reverse, d ≤ 1 := fun d hd => h d (List.mem_reverse.mp hd)
  have hstrip :
      (((l.map bitChar).dropWhile isPySpace).reverse.dropWhile isPySpace).reverse
        = l.map bitChar := by
    rw [dropWhile_no_space l h, ← List.map_reverse, dropWhile_no_space l.reverse hrev,
      List.map_reverse, List.reverse_reverse]
  unfold pyIntBase2
  rw [hstrip]
  cases l with
  | nil => exact absurd rfl hne
  | cons d t =>
    have hd : d ≤ 1 := h d (by simp)
    have hbody := pyBinBody_digits (d :: t) h hne
    rcases bitChar_cases hd with hc | hc <;>
      rw [List.map_cons, hc, pyIntSigned_cons, if_neg (by decide), if_neg (by decide)] <;>
      rw [← hc, ← List.map_cons, hbody] <;>
      rfl

/-! ### Bounds for `hexDigits` -/

theorem hexDigits_pos (v : Nat) : 0 < hexDigits v := by
  rw [hexDigits_eq]
  split
  · omega
  · omega

theorem lt_two_pow_hexDigits (v : Nat) : v < 2 ^ (hexDigits v * 4) := by
  induction v using Nat.strong_induction_on with
  | _ v ih =>
    rw [hexDigits_eq]
    split
    · calc v < 16 := by assumption
        _ ≤ 2 ^ (1 * 4) := by norm_num
    · rename_i hv
      have h16 : 16 ≤ v := by omega
      have hd : v / 16 < v := Nat.div_lt_self (by omega) (by omega)
      have hih := ih (v / 16) hd
      have hpow : 2 ^ ((hexDigits (v / 16) + 1) * 4)
          = 2 ^ (hexDigits (v / 16) * 4) * 16 := by
        rw [Nat.add_mul, Nat.one_mul, pow_add]
        norm_num
      rw [hpow]
      have hmod := Nat.div_add_mod v 16
      have : v % 16 < 16 := Nat.mod_lt v (by omega)
      omega

theorem hexDigits_le {v k : Nat} (hk : 0 < k) (h : v < 2 ^ (k * 4)) : hexDigits v ≤ k := by
  induction v using Nat.strong_induction_on generalizing k with
  | _ v ih =>
    rw [hexDigits_eq]
    split
    · omega
    · rename_i hv
      have h16 : 16 ≤ v := by omega
      have hk2 : 2 ≤ k := by
        by_contra hcon
        have hk1 : k = 1 := by omega
        subst hk1
        have : (2 : Nat) ^ (1 * 4) = 16 := by norm_num
        omega
      have hd : v / 16 < v := Nat.div_lt_self (by omega) (by omega)
      have hstep : v / 16 < 2 ^ ((k - 1) * 4) := by
        rw [Nat.div_lt_iff_lt_mul (by omega : (0 : Nat) < 16)]
        calc v < 2 ^ (k * 4) := h
          _ = 2 ^ ((k - 1) * 4) * 16 := by
            rw [show (16 : Nat) = 2 ^ 4 by norm_num, ← pow_add (2 : Nat)]
            congr 1
            omega
      have := ih (v / 16) hd (by omega) hstep
      omega

/-! ### Normal form for `bitrev` -/

theorem int2bin_zero_numBits (val : Nat) :
    int2bin val 0 = ((littleBits val (hexDigits val * 4)).reverse).map bitChar := by
  unfold int2bin
  rw [int2binBits_eq]
  simp

theorem bitrev_eq_revAt (val bits : Nat) :
    bitrev val bits = some ((revAt val (max bits (hexDigits val * 4)) : Nat) : Int) := by
  have hbody : bitrev val bits
      = pyIntBase2 (List.foldl (fun acc c => c :: acc) []
          (if (int2bin val 0).length ≠ bits
            then List.replicate (bits - (int2bin val 0).length) '0' ++ int2bin val 0
            else int2bin val 0)) := rfl
  set n := hexDigits val * 4 with hn
  have hlen : (int2bin val 0).length = n := by
    rw [int2bin_zero_numBits]
    simp [littleBits_length]
  have hpad :
      (if (int2bin val 0).length ≠ bits
        then List.replicate (bits - (int2bin val 0).length) '0' ++ int2bin val 0
        else int2bin val 0)
      = List.replicate (bits - n) '0' ++ int2bin val 0 := by
    split
    · rw [hlen]
    · rename_i he
      rw [hlen] at he
      have hnb : n = bits := not_ne_iff.mp he
      rw [← hnb, Nat.sub_self, List.replicate_zero, List.nil_append]
  rw [hbody, hpad, foldl_cons_self]
  have hform :
      (List.replicate (bits - n) '0' ++ int2bin val 0).reverse
        = (littleBits val n ++ List.replicate (bits - n) 0).map bitChar := by
    rw [List.reverse_append, int2bin_zero_numBits, ← List.map_reverse, List.reverse_reverse,
      List.reverse_replicate, List.map_append]
    congr 1
    rw [List.map_replicate]
    rfl
  rw [hform]
  have hdig : ∀ d ∈ littleBits val n ++ List.replicate (bits - n) 0, d ≤ 1 := by
    intro d hd
    rcases List.mem_append.mp hd with hd | hd
    · exact littleBits_le val n d hd
    · rw [List.eq_of_mem_replicate hd]
      omega
  have hne : littleBits val n ++ List.replicate (bits - n) 0 ≠ [] := by
    intro hcon
    have := congrArg List.length hcon
    simp [littleBits_length] at this
    have := hexDigits_pos val
    omega
  rw [pyIntBase2_digits _ hdig hne]
  congr 2
  rcases le_or_lt n bits with hle | hlt
  · rw [Nat.max_eq_left hle]
    unfold revAt
    rw [littleBits_append val n bits (lt_two_pow_hexDigits val) hle]
  · rw [Nat.max_eq_right (by omega)]
    have : bits - n = 0 := by omega
    rw [this, List.replicate_zero, List.append_nil]
    rfl

/-! ### `revAt` is an involution below `2 ^ W` -/

theorem revAt_lt (v W : Nat) : revAt v W < 2 ^ W := by
  unfold revAt
  rw [parseBinNat_eq_lval_reverse]
  have h := lval_lt (littleBits v W).reverse
    (fun d hd => littleBits_le v W d (List.mem_reverse.mp hd))
  rwa [List.length_reverse, littleBits_length] at h

theorem littleBits_revAt (v W : Nat) :
    littleBits (revAt v W) W = (littleBits v W).reverse := by
  apply List.ext_getElem
  · simp [littleBits_length]
  · intro x h1 h2
    have hx : x < W := by simpa [littleBits_length] using h1
    have hlhs : (littleBits (revAt v W) W)[x] = revAt v W / 2 ^ x % 2 := by
      simp [littleBits]
    have hval : revAt v W = lval ((littleBits v W).reverse) := by
      unfold revAt
      rw [parseBinNat_eq_lval_reverse]
    have hdig : ∀ d ∈ (littleBits v W).reverse, d ≤ 1 :=
      fun d hd => littleBits_le v W d (List.mem_reverse.mp hd)
    rw [hlhs, hval, lval_div_mod _ hdig x,
      List.getD_eq_getElem _ _ (by simpa [littleBits_length] using hx)]

theorem revAt_revAt (v W : Nat) (h : v < 2 ^ W) : revAt (revAt v W) W = v := by
  conv_lhs => rw [revAt, littleBits_revAt, parseBinNat_reverse, lval_littleBits]
  exact Nat.mod_eq_of_lt h

theorem revAt_zero_left (W : Nat) : revAt 0 W = 0 := by
  rw [revAt, littleBits_zero_left, parseBinNat_replicate_zero]


/-! ### Characters accepted by `int(s, 2)` (for claim C8) -/

theorem parseBinTail_underscore_step (c2 : Char) (rest2 : List Char) (acc : Nat) :
    parseBinTail ('_' :: c2 :: rest2) acc
      = if isBinDigitChar c2 then parseBinTail rest2 (acc * 2 + binDigitVal c2) else none := rfl

theorem parseBinTail_cons_step (c : Char) (rest : List Char) (acc : Nat) (hne : c ≠ '_') :
    parseBinTail (c :: rest) acc
      = if isBinDigitChar c then parseBinTail rest (acc * 2 + binDigitVal c) else none := by
  rw [parseBinTail.eq_def]
  simp only [if_neg hne]

theorem isBinDigitChar_elim {c : Char} (h : isBinDigitChar c = true) : c = '0' ∨ c = '1' := by
  simpa [isBinDigitChar] using h

theorem parseBinTail_chars (l : List Char) (acc : Nat) :
    ∀ n : Nat, parseBinTail l acc = some n → ∀ c ∈ l, c = '0' ∨ c = '1' ∨ c = '_' := by
  induction l, acc using parseBinTail.induct with
  | case1 acc => intro n _ c hc; exact absurd hc (List.not_mem_nil c)
  | case2 acc =>
    intro n h
    exact absurd h (by simp [parseBinTail])
  | case3 acc c2 rest2 hbd ih =>
    intro n h c hc
    rw [parseBinTail_underscore_step, if_pos hbd] at h
    rcases List.mem_cons.mp hc with rfl | hc
    · right; right; rfl
    · rcases List.mem_cons.mp hc with rfl | hc
      · rcases isBinDigitChar_elim hbd with h0 | h1
        · left; exact h0
        · right; left; exact h1
      · exact ih n h c hc
  | case4 acc c2 rest2 hbd =>
    intro n h
    rw [parseBinTail_underscore_step, if_neg hbd] at h
    exact absurd h (by simp)
  | case5 c rest acc hne hbd ih =>
    intro n h d hd
    rw [parseBinTail_cons_step c rest acc hne, if_pos hbd] at h
    rcases List.mem_cons.mp hd with rfl | hd
    · rcases isBinDigitChar_elim hbd with h0 | h1
      · left; exact h0
      · right; left; exact h1
    · exact ih n h d hd
  | case6 c rest acc hne hbd =>
    intro n h
    rw [parseBinTail_cons_step c rest acc hne, if_neg hbd] at h
    exact absurd h (by simp)

theorem parseBinDigitsStart_cons_step (c : Char) (rest : List Char) :
    parseBinDigitsStart (c :: rest)
      = if isBinDigitChar c then parseBinTail rest (binDigitVal c) else none := rfl

theorem parseBinDigitsStart_chars (l : List Char) (n : Nat)
    (h : parseBinDigitsStart l = some n) :
    ∀ c ∈ l, c = '0' ∨ c = '1' ∨ c = '_' := by
  cases l with
  | nil => intro c hc; exact absurd hc (List.not_mem_nil c)
  | cons c0 rest =>
    intro c hc
    rw [parseBinDigitsStart_cons_step] at h
    by_cases hbd : isBinDigitChar c0 = true
    · rw [if_pos hbd] at h
      rcases List.mem_cons.mp hc with rfl | hc
      · rcases isBinDigitChar_elim hbd with h0 | h1
        · left; exact h0
        · right; left; exact h1
      · exact parseBinTail_chars rest (binDigitVal c0) n h c hc
    · rw [if_neg hbd] at h
      exact absurd h (by simp)

theorem pyBinBody_two_step (c0 c1 : Char) (rest : List Char) :
    pyBinBody (c0 :: c1 :: rest)
      = if c0 = '0' ∧ (c1 = 'b' ∨ c1 = 'B') then parseBinDigitsStart (dropOneUnderscore rest)
        else parseBinDigitsStart (c0 :: c1 :: rest) := rfl

theorem pyBinBody_chars (l : List Char) (n : Nat) (h : pyBinBody l = some n) :
    ∀ c ∈ l, c = '0' ∨ c = '1' ∨ c = '_' ∨ c = 'b' ∨ c = 'B' := by
  cases l with
  | nil => intro c hc; exact absurd hc (List.not_mem_nil c)
  | cons c0 l1 =>
    cases l1 with
    | nil =>
      intro c hc
      have hstart : parseBinDigitsStart [c0] = some n := h
      have := parseBinDigitsStart_chars _ n hstart c hc
      tauto
    | cons c1 rest =>
      intro c hc
      rw [pyBinBody_two_step] at h
      by_cases hpre : c0 = '0' ∧ (c1 = 'b' ∨ c1 = 'B')
      · rw [if_pos hpre] at h
        rcases List.mem_cons.mp hc with rfl | hc
        · left; exact hpre.1
        · rcases List.mem_cons.mp hc with rfl | hc
          · rcases hpre.2 with hb | hb
            · right; right; right; left; exact hb
            · right; right; right; right; exact hb
          · have hrest := parseBinDigitsStart_chars _ n h
            cases rest with
            | nil => exact absurd hc (List.not_mem_nil c)
            | cons r0 rest2 =>
              rw [show dropOneUnderscore (r0 :: rest2)
                  = if r0 = '_' then rest2 else r0 :: rest2 from rfl] at hrest
              by_cases hu : r0 = '_'
              · rw [if_pos hu] at hrest
                rcases List.mem_cons.mp hc with rfl | hc
                · right; right; left; exact hu
                · have := hrest c hc
                  tauto
              · rw [if_neg hu] at hrest
                have := hrest c hc
                tauto
      · rw [if_neg hpre] at h
        have := parseBinDigitsStart_chars _ n h c hc
        tauto

theorem pyIntBase2_chars (s : List Char) (n : Int) (h : pyIntBase2 s = some n) :
    ∀ c ∈ s, c = '0' ∨ c = '1' ∨ c = '_' ∨ c = 'b' ∨ c = 'B'
      ∨ c = '+' ∨ c = '-' ∨ isPySpace c = true := by
  intro c hc
  by_cases hsp : isPySpace c = true
  · tauto
  have hs_split : s = s.takeWhile isPySpace ++ s.dropWhile isPySpace :=
    (List.takeWhile_append_dropWhile (p := isPySpace) (l := s)).symm
  have hu_split : s.dropWhile isPySpace
      = ((s.dropWhile isPySpace).reverse.dropWhile isPySpace).reverse
        ++ ((s.dropWhile isPySpace).reverse.takeWhile isPySpace).reverse := by
    calc s.dropWhile isPySpace = ((s.dropWhile isPySpace).reverse).reverse := by
          rw [List.reverse_reverse]
      _ = (((s.dropWhile isPySpace).reverse.takeWhile isPySpace)
            ++ ((s.dropWhile isPySpace).reverse.dropWhile isPySpace)).reverse := by
          rw [List.takeWhile_append_dropWhile]
      _ = _ := by rw [List.reverse_append]
  have hct : c ∈ ((s.dropWhile isPySpace).reverse.dropWhile isPySpace).reverse := by
    have hcs : c ∈ s := hc
    rw [hs_split] at hcs
    rcases List.mem_append.mp hcs with hcw | hcu
    · exact absurd (List.mem_takeWhile_imp hcw) hsp
    · rw [hu_split] at hcu
      rcases List.mem_append.mp hcu with h1 | h2
      · exact h1
      · exact absurd (List.mem_takeWhile_imp (List.mem_reverse.mp h2)) hsp
  unfold pyIntBase2 at h
  rcases htc : ((s.dropWhile isPySpace).reverse.dropWhile isPySpace).reverse with _ | ⟨c0, rest⟩
  · rw [htc] at hct
    exact absurd hct (List.not_mem_nil c)
  · rw [htc] at hct h
    rw [pyIntSigned_cons] at h
    by_cases hplus : c0 = '+'
    · rw [if_pos hplus] at h
      rcases hpb : pyBinBody rest with _ | m
      · rw [hpb] at h; simp at h
      · rcases List.mem_cons.mp hct with rfl | hct
        · right; right; right; right; right; left; exact hplus
        · have := pyBinBody_chars rest m hpb c hct
          tauto
    · rw [if_neg hplus] at h
      by_cases hminus : c0 = '-'
      · rw [if_pos hminus] at h
        rcases hpb : pyBinBody rest with _ | m
        · rw [hpb] at h; simp at h
        · rcases List.mem_cons.mp hct with rfl | hct
          · right; right; right; right; right; right; left; exact hminus
          · have := pyBinBody_chars rest m hpb c hct
            tauto
      · rw [if_neg hminus] at h
        rcases hpb : pyBinBody (c0 :: rest) with _ | m
        · rw [hpb] at h; simp at h
        · have := pyBinBody_chars (c0 :: rest) m hpb c hct
          tauto

/-! ## Claims C1, C2, C3 and C8 -/

/-- C1 as stated is false: `bits = 5` is at least the bit-length of
`v = 16` (which is 5), yet applying `bitrev` twice at width 5 yields 2,
not 16 — the inner reversal happens at the nibble-inferred width 8, and
the outer one at width 5 with padding, so the two widths disagree. -/
theorem c1_counterexample :
    Nat.size 16 ≤ 5
      ∧ (bitrev 16 5).bind (fun w => bitrev w.toNat 5) = some ((2 : Nat) : Int)
      ∧ ((2 : Nat) : Int) ≠ ((16 : Nat) : Int) :=
  ⟨Nat.size_le.mpr (by decide), by decide, by decide⟩

/-- C1 (amended): double `bitrev` at the same width is the identity for
every width `bits` that is at least the bit-length of `v` AND is
nibble-aligned (a multiple of 4); for non-nibble-aligned widths the claim
fails (see the counterexample). -/
theorem c1_bitrev_bitrev_identity (v bits : Nat) (h4 : bits % 4 = 0)
    (hb : Nat.size v ≤ bits) :
    (bitrev v bits).bind (fun w => bitrev w.toNat bits) = some ((v : Nat) : Int) := by
  have hv : v < 2 ^ bits := Nat.size_le.mp hb
  by_cases h0 : v = 0
  · subst h0
    have hb1 : bitrev 0 bits = some ((0 : Nat) : Int) := by
      rw [bitrev_eq_revAt 0 bits, revAt_zero_left]
    rw [hb1, Option.some_bind, Int.toNat_natCast]
    exact hb1
  · have hvpos : 0 < v := Nat.pos_of_ne_zero h0
    have hbpos : 0 < bits := lt_of_lt_of_le (Nat.size_pos.mpr hvpos) hb
    have hb4 : 4 ≤ bits := by omega
    have hk : 0 < bits / 4 := by omega
    have hk4 : bits / 4 * 4 = bits := by omega
    have hn : hexDigits v * 4 ≤ bits := by
      have := hexDigits_le hk (by rw [hk4]; exact hv)
      omega
    have hb1 : bitrev v bits = some ((revAt v bits : Nat) : Int) := by
      rw [bitrev_eq_revAt, Nat.max_eq_left hn]
    have hw : hexDigits (revAt v bits) * 4 ≤ bits := by
      have := hexDigits_le hk (by rw [hk4]; exact revAt_lt v bits)
      omega
    have hb2 : bitrev (revAt v bits) bits = some ((revAt (revAt v bits) bits : Nat) : Int) := by
      rw [bitrev_eq_revAt, Nat.max_eq_left hw]
    rw [hb1, Option.some_bind, Int.toNat_natCast, hb2, revAt_revAt v bits hv]

theorem c1_witness :
    (bitrev 18 8).bind (fun w => bitrev w.toNat 8) = some ((18 : Nat) : Int) :=
  c1_bitrev_bitrev_identity 18 8 (by decide) (Nat.size_le.mpr (by decide))

/-- C2 as stated is false: for `v = 16` the natural (nibble-inferred)
width is 8, which exceeds `bits = 4`, yet `bitrev` raises no error: it
returns the value 8 (the reversal at the natural width 8). -/
theorem c2_counterexample :
    4 < hexDigits 16 * 4
      ∧ bitrev 16 4 = some ((8 : Nat) : Int)
      ∧ bitrev 16 4 ≠ none :=
  ⟨by decide, by decide, by decide⟩

/-- C2 (amended): when the natural nibble-inferred width of `v` exceeds
`bits`, `bitrev` does not signal an error: `"0" * (bits - len)` is empty
for a negative count, so the string is left at its natural width and the
call returns the reversal at that natural width. -/
theorem c2_bitrev_wide_value_no_error (v bits : Nat) (h : bits < hexDigits v * 4) :
    bitrev v bits = bitrev v (hexDigits v * 4)
      ∧ bitrev v bits = some ((revAt v (hexDigits v * 4) : Nat) : Int) := by
  have h2 : bitrev v bits = some ((revAt v (hexDigits v * 4) : Nat) : Int) := by
    rw [bitrev_eq_revAt, Nat.max_eq_right (le_of_lt h)]
  refine ⟨?_, h2⟩
  rw [h2, bitrev_eq_revAt, Nat.max_self]

theorem c2_witness :
    bitrev 16 4 = bitrev 16 (hexDigits 16 * 4)
      ∧ bitrev 16 4 = some ((revAt 16 (hexDigits 16 * 4) : Nat) : Int) :=
  c2_bitrev_wide_value_no_error 16 4 (by decide)

/-- C3: converting a non-negative integer to its binary string at the
inferred width and parsing it back with `int(s, 2)` returns the original
value. -/
theorem c3_int2bin_bin2int_roundtrip (v : Nat) :
    bin2int (int2bin v 0) = some ((v : Nat) : Int) := by
  show pyIntBase2 (int2bin v 0) = _
  rw [int2bin_zero_numBits]
  have hdig : ∀ d ∈ (littleBits v (hexDigits v * 4)).reverse, d ≤ 1 :=
    fun d hd => littleBits_le v _ d (List.mem_reverse.mp hd)
  have hne : (littleBits v (hexDigits v * 4)).reverse ≠ [] := by
    intro hcon
    have := congrArg List.length hcon
    simp [littleBits_length] at this
    have := hexDigits_pos v
    omega
  rw [pyIntBase2_digits _ hdig hne, parseBinNat_reverse, lval_littleBits,
    Nat.mod_eq_of_lt (lt_two_pow_hexDigits v)]

/-- C8 as stated is false: `int(s, 2)` is more permissive than strings of
`'0'`/`'1'` only — `"0b1"` contains the character `'b'` yet parses
successfully to 1. -/
theorem c8_counterexample :
    bin2int ['0', 'b', '1'] = some 1 ∧ ¬('b' = '0' ∨ 'b' = '1') :=
  ⟨by decide, by decide⟩

/-- C8 (amended): `binaryStringToInt` fails on every string containing a
character other than the binary digits `'0'`/`'1'`, an underscore, the
prefix letters `'b'`/`'B'`, a sign `'+'`/`'-'`, or whitespace
(contrapositive form: a successful parse means every character of the
input is of one of those kinds). -/
theorem c8_bin2int_rejects_foreign_chars (s : List Char) (n : Int)
    (h : bin2int s = some n) :
    ∀ c ∈ s, c = '0' ∨ c = '1' ∨ c = '_' ∨ c = 'b' ∨ c = 'B'
      ∨ c = '+' ∨ c = '-' ∨ isPySpace c = true :=
  pyIntBase2_chars s n h

theorem c8_witness :
    '1' = '0' ∨ '1' = '1' ∨ '1' = '_' ∨ '1' = 'b' ∨ '1' = 'B'
      ∨ '1' = '+' ∨ '1' = '-' ∨ isPySpace '1' = true :=
  c8_bin2int_rejects_foreign_chars ['1'] 1 (by decide) '1' (by decide)

/-! ## `ones` and `zeros` (claim C4)

`ones(val, bits=32, bitrev=0)` walks `x` over `range(0, bits)` and appends
an index for every `x` with `val & (1 << x)` truthy (i.e. nonzero).  The
value may be any Python integer; on a negative number, Python's `>>`/`&`
act on the infinite two's-complement representation, so the tested bit is
`(val >> x) & 1 = (val // 2**x) % 2` with floor division — which for the
positive divisor `2 ^ x` coincides with Lean's Euclidean `Int`
division/remainder.  The appended value is `x`, or `bits - x - 1` when the
`bitrev` flag is set; the iteration order over `x` is always ascending. -/

/-- `ones(val, bits, bitrev)`: indices of the one bits. -/
def ones (val : Int) (bits : Nat) (bitrev : Bool) : List Nat :=
  (List.range bits).foldl
    (fun l x =>
      if val / 2 ^ x % 2 = 1 then
        (if bitrev then l ++ [bits - x - 1] else l ++ [x])
      else l) []

/-- `zeros(val, bits, bitrev)`: indices of the zero bits. -/
def zeros (val : Int) (bits : Nat) (bitrev : Bool) : List Nat :=
  (List.range bits).foldl
    (fun l x =>
      if ¬(val / 2 ^ x % 2 = 1) then
        (if bitrev then l ++ [bits - x - 1] else l ++ [x])
      else l) []

theorem foldl_if_append {α β : Type} (p : α → Prop) [DecidablePred p] (g : α → β) :
    ∀ (l : List α) (acc : List β),
      l.foldl (fun acc x => if p x then acc ++ [g x] else acc) acc
        = acc ++ (l.filter (fun x => decide (p x))).map g := by
  intro l
  induction l with
  | nil => intro acc; simp
  | cons a t ih =>
    intro acc
    by_cases hp : p a
    · simp only [List.foldl_cons, if_pos hp, List.filter_cons, decide_eq_true hp, ih]
      simp
    · simp only [List.foldl_cons, if_neg hp, List.filter_cons, ih]
      simp [hp]

theorem ones_eq (val : Int) (bits : Nat) (br : Bool) :
    ones val bits br
      = ((List.range bits).filter (fun x => decide (val / 2 ^ x % 2 = 1))).map
          (fun x => if br then bits - x - 1 else x) := by
  cases br
  · unfold ones
    rw [show (fun (l : List Nat) (x : Nat) =>
        if val / 2 ^ x % 2 = 1 then (if false then l ++ [bits - x - 1] else l ++ [x]) else l)
      = fun l x => if val / 2 ^ x % 2 = 1 then l ++ [(fun x => x) x] else l from rfl]
    rw [foldl_if_append (fun x => val / 2 ^ x % 2 = 1) (fun x => x)]
    simp
  · unfold ones
    rw [show (fun (l : List Nat) (x : Nat) =>
        if val / 2 ^ x % 2 = 1 then (if true then l ++ [bits - x - 1] else l ++ [x]) else l)
      = fun l x => if val / 2 ^ x % 2 = 1 then l ++ [(fun x => bits - x - 1) x] else l from rfl]
    rw [foldl_if_append (fun x => val / 2 ^ x % 2 = 1) (fun x => bits - x - 1)]
    simp

theorem zeros_eq (val : Int) (bits : Nat) (br : Bool) :
    zeros val bits br
      = ((List.range bits).filter (fun x => !decide (val / 2 ^ x % 2 = 1))).map
          (fun x => if br then bits - x - 1 else x) := by
  have hneg : (fun x : Nat => decide (¬(val / 2 ^ x % 2 = 1)))
      = fun x : Nat => !decide (val / 2 ^ x % 2 = 1) := by
    funext x
    exact decide_not
  cases br
  · unfold zeros
    rw [show (fun (l : List Nat) (x : Nat) =>
        if ¬(val / 2 ^ x % 2 = 1) then (if false then l ++ [bits - x - 1] else l ++ [x]) else l)
      = fun l x => if ¬(val / 2 ^ x % 2 = 1) then l ++ [(fun x => x) x] else l from rfl]
    rw [foldl_if_append (fun x => ¬(val / 2 ^ x % 2 = 1)) (fun x => x)]
    rw [hneg]
    simp
  · unfold zeros
    rw [show (fun (l : List Nat) (x : Nat) =>
        if ¬(val / 2 ^ x % 2 = 1) then (if true then l ++ [bits - x - 1] else l ++ [x]) else l)
      = fun l x => if ¬(val / 2 ^ x % 2 = 1) then l ++ [(fun x => bits - x - 1) x] else l from rfl]
    rw [foldl_if_append (fun x => ¬(val / 2 ^ x % 2 = 1)) (fun x => bits - x - 1)]
    rw [hneg]
    simp

theorem ones_false_eq (val : Int) (bits : Nat) :
    ones val bits false = (List.range bits).filter (fun x => decide (val / 2 ^ x % 2 = 1)) := by
  rw [ones_eq]
  simp

theorem zeros_false_eq (val : Int) (bits : Nat) :
    zeros val bits false = (List.range bits).filter (fun x => !decide (val / 2 ^ x % 2 = 1)) := by
  rw [zeros_eq]
  simp

theorem ones_true_eq (val : Int) (bits : Nat) :
    ones val bits true
      = ((List.range bits).filter (fun x => decide (val / 2 ^ x % 2 = 1))).map
          (fun x => bits - x - 1) := by
  rw [ones_eq]
  simp

theorem zeros_true_eq (val : Int) (bits : Nat) :
    zeros val bits true
      = ((List.range bits).filter (fun x => !decide (val / 2 ^ x % 2 = 1))).map
          (fun x => bits - x - 1) := by
  rw [zeros_eq]
  simp

/-- C4: for every integer `v` and positive width, the unreversed `ones`
and `zeros` sequences together are exactly the indices `0 … bits-1`, each
exactly once (stated as a permutation of `range bits`, which gives both
the cover and the disjointness); both are strictly ascending; and setting
the `bitrev` flag replaces each reported index `i` by `bits - i - 1` while
keeping the original iteration order. -/
theorem c4_ones_zeros_partition (v : Int) (bits : Nat) (_hb : 0 < bits) :
    (ones v bits false ++ zeros v bits false).Perm (List.range bits)
      ∧ ones v bits true = (ones v bits false).map (fun i => bits - i - 1)
      ∧ zeros v bits true = (zeros v bits false).map (fun i => bits - i - 1)
      ∧ List.Pairwise (· < ·) (ones v bits false)
      ∧ List.Pairwise (· < ·) (zeros v bits false) := by
  refine ⟨?_, ?_, ?_, ?_, ?_⟩
  · rw [ones_false_eq, zeros_false_eq]
    exact List.filter_append_perm _ (List.range bits)
  · rw [ones_true_eq, ones_false_eq]
  · rw [zeros_true_eq, zeros_false_eq]
  · rw [ones_false_eq]
    exact (List.pairwise_lt_range bits).sublist (List.filter_sublist _)
  · rw [zeros_false_eq]
    exact (List.pairwise_lt_range bits).sublist (List.filter_sublist _)

theorem c4_witness :
    ((ones (-5) 4 false ++ zeros (-5) 4 false).Perm (List.range 4)
      ∧ ones (-5) 4 true = (ones (-5) 4 false).map (fun i => 4 - i - 1)
      ∧ zeros (-5) 4 true = (zeros (-5) 4 false).map (fun i => 4 - i - 1)
      ∧ List.Pairwise (· < ·) (ones (-5) 4 false)
      ∧ List.Pairwise (· < ·) (zeros (-5) 4 false)) :=
  c4_ones_zeros_partition (-5) 4 (by decide)

/-! ## The ratio solver (claim C5)

`ratio(n1, d1, n2, d2)` compares each argument against the module-level
sentinel `x = 'x'` (a one-character string) and, on the first match,
returns the cross-multiplication expression of the three other arguments;
with no match it falls through to `return None`.  An argument is either
that sentinel or a number (int/float, modelled here as an exact `ℚ`). -/

/-- Argument of `ratio`: the sentinel string `'x'` or a number. -/
inductive RArg where
  | unknown : RArg
  | num : ℚ → RArg
deriving DecidableEq

/-- Observable outcome of a `ratio` call: a returned value, the returned
`None`, or a raised `TypeError`/`ZeroDivisionError`. -/
inductive RResult where
  | val : ℚ → RResult
  | none : RResult
  | typeError : RResult
  | zeroDivError : RResult
deriving DecidableEq

/-- One branch expression `(a * b) / (c * 1.0)` of `ratio`.  If any operand
is the string sentinel, Python raises `TypeError` (multiplying a string by
a float, or dividing a string by a float); with numeric operands and
`c = 0` it raises `ZeroDivisionError`; otherwise it returns the float
quotient. -/
def cross (a b c : RArg) : RResult :=
  match a, b, c with
  | RArg.num qa, RArg.num qb, RArg.num qc =>
    if qc = 0 then RResult.zeroDivError else RResult.val (qa * qb / qc)
  | _, _, _ => RResult.typeError

/-- `ratio(n1, d1, n2, d2)`: the four sentinel tests in source order. -/
def ratio (n1 d1 n2 d2 : RArg) : RResult :=
  if n1 = RArg.unknown then cross d1 n2 d2
  else if n2 = RArg.unknown then cross d2 n1 d1
  else if d1 = RArg.unknown then cross n1 d2 n2
  else if d2 = RArg.unknown then cross n2 d1 n1
  else RResult.none

/-- The behaviour of `ratio` as a function of how many arguments are the
sentinel (the amended form of claim C5): `None` for zero sentinels, a
`TypeError` for two or more, and the cross-multiplication solution for
exactly one (a `ZeroDivisionError` when the corresponding divisor is
zero). -/
def ratioSpec (n1 d1 n2 d2 : RArg) : RResult :=
  match ([n1, d1, n2, d2].count RArg.unknown) with
  | 0 => RResult.none
  | 1 =>
    match n1, d1, n2, d2 with
    | RArg.unknown, RArg.num b, RArg.num c, RArg.num d =>
      if d = 0 then RResult.zeroDivError else RResult.val (b * c / d)
    | RArg.num a, RArg.unknown, RArg.num c, RArg.num d =>
      if c = 0 then RResult.zeroDivError else RResult.val (a * d / c)
    | RArg.num a, RArg.num b, RArg.unknown, RArg.num d =>
      if b = 0 then RResult.zeroDivError else RResult.val (d * a / b)
    | RArg.num a, RArg.num b, RArg.num c, RArg.unknown =>
      if a = 0 then RResult.zeroDivError else RResult.val (c * b / a)
    | _, _, _, _ => RResult.typeError
  | _ => RResult.typeError

/-- C5 as stated is false: with two sentinel arguments, `ratio` does not
return an empty/absent result — it takes the first matching branch and
raises a `TypeError` when the branch expression multiplies or divides the
other sentinel string. -/
theorem c5_counterexample :
    ratio RArg.unknown RArg.unknown (RArg.num 4) (RArg.num 8) = RResult.typeError
      ∧ RResult.typeError ≠ RResult.none :=
  ⟨by decide, by decide⟩

/-- C5 (amended): `ratio` returns `None` exactly when no argument is the
sentinel; with two or more sentinels it raises a `TypeError`; with exactly
one sentinel it returns the cross-multiplication solution (raising
`ZeroDivisionError` when the divisor of that solution is zero).  In
particular `ratio('x', 2, 4, 8) = 1`. -/
theorem c5_ratio_matches_marker_count :
    (∀ n1 d1 n2 d2 : RArg, ratio n1 d1 n2 d2 = ratioSpec n1 d1 n2 d2)
      ∧ ratio RArg.unknown (RArg.num 2) (RArg.num 4) (RArg.num 8) = RResult.val 1 := by
  constructor
  · intro n1 d1 n2 d2
    cases n1 <;> cases d1 <;> cases n2 <;> cases d2 <;>
      simp [ratio, ratioSpec, cross, List.count_cons]
  · norm_num [ratio, cross]

/-! ## Byte swapping (claim C7)

The five swap functions from the source, written with the same masks and
shifts (`&`/`<<`/`>>`/`|` on non-negative integers are `Nat` bitwise
operations). -/

/-- `swab16(x)`: swap the two bytes of a 16-bit value. -/
def swab16 (x : Nat) : Nat :=
  ((x &&& 0x00ff) <<< 8) ||| ((x &&& 0xff00) >>> 8)

/-- `swab32(x)`: reverse the four bytes of a 32-bit value. -/
def swab32 (x : Nat) : Nat :=
  ((x &&& 0x000000ff) <<< 24) |||
  ((x &&& 0x0000ff00) <<< 8) |||
  ((x &&& 0x00ff0000) >>> 8) |||
  ((x &&& 0xff000000) >>> 24)

/-- `swab64(x)`: reverse the eight bytes of a 64-bit value. -/
def swab64 (x : Nat) : Nat :=
  ((x &&& 0x00000000000000ff) <<< 56) |||
  ((x &&& 0x000000000000ff00) <<< 40) |||
  ((x &&& 0x0000000000ff0000) <<< 24) |||
  ((x &&& 0x00000000ff000000) <<< 8) |||
  ((x &&& 0x000000ff00000000) >>> 8) |||
  ((x &&& 0x0000ff0000000000) >>> 24) |||
  ((x &&& 0x00ff000000000000) >>> 40) |||
  ((x &&& 0xff00000000000000) >>> 56)

/-- `swah32(x)`: swap the 16-bit halves of a 32-bit value. -/
def swah32 (x : Nat) : Nat :=
  ((x &&& 0x0000ffff) <<< 16) ||| ((x &&& 0xffff0000) >>> 16)

/-- `swahb32(x)`: swap the bytes within each 16-bit half of a 32-bit
value. -/
def swahb32 (x : Nat) : Nat :=
  ((x &&& 0x00ff00ff) <<< 8) ||| ((x &&& 0xff00ff00) >>> 8)

/-- Bit `j` of `x &&& ((2^k - 1) <<< s)`: bit `j` of `x`, gated to the
window `s ≤ j < s + k`. -/
theorem testBit_and_block (x k s j : Nat) :
    (x &&& ((2 ^ k - 1) <<< s)).testBit j
      = (x.testBit j && (decide (s ≤ j) && decide (j < s + k))) := by
  rw [Nat.testBit_and, Nat.testBit_shiftLeft, Nat.testBit_two_pow_sub_one]
  by_cases h1 : s ≤ j
  · simp only [decide_eq_true h1, Bool.true_and]
    have : (j - s < k) ↔ (j < s + k) := by omega
    rw [decide_eq_decide.mpr this]
  · simp [h1]

theorem swab16_testBit (y j : Nat) :
    (swab16 y).testBit j
      = (decide (j < 16) && y.testBit (if j < 8 then j + 8 else j - 8)) := by
  unfold swab16
  rw [show (0x00ff : Nat) = (2 ^ 8 - 1) <<< 0 by decide,
    show (0xff00 : Nat) = (2 ^ 8 - 1) <<< 8 by decide]
  rw [Nat.testBit_or, Nat.testBit_shiftLeft, Nat.testBit_shiftRight,
    testBit_and_block, testBit_and_block]
  by_cases h8 : j < 8
  · rw [decide_eq_false (show ¬(8 ≤ j) by omega),
      decide_eq_true (show 8 ≤ 8 + j by omega),
      decide_eq_true (show 8 + j < 8 + 8 by omega),
      decide_eq_true (show j < 16 by omega), if_pos h8]
    simp [Nat.add_comm]
  · rw [decide_eq_true (show 8 ≤ j by omega),
      decide_eq_false (show ¬(8 + j < 8 + 8) by omega),
      decide_eq_decide.mpr (show (j - 8 < 0 + 8) ↔ (j < 16) by omega),
      decide_eq_true (show 0 ≤ j - 8 by omega), if_neg h8]
    cases hd : decide (j < 16) <;> simp [hd]

theorem swab16_swab16 (v : Nat) (h : v < 2 ^ 16) : swab16 (swab16 v) = v := by
  apply Nat.eq_of_testBit_eq
  intro i
  rw [swab16_testBit, swab16_testBit]
  by_cases h16 : i < 16
  · rw [decide_eq_true h16]
    by_cases h8 : i < 8
    · rw [if_pos h8, decide_eq_true (show i + 8 < 16 by omega),
        if_neg (show ¬(i + 8 < 8) by omega), show i + 8 - 8 = i by omega]
      simp
    · rw [if_neg h8, decide_eq_true (show i - 8 < 16 by omega),
        if_pos (show i - 8 < 8 by omega), show i - 8 + 8 = i by omega]
      simp
  · rw [decide_eq_false h16]
    simp only [Bool.false_and]
    exact (Nat.testBit_lt_two_pow
      (lt_of_lt_of_le h (Nat.pow_le_pow_right (by omega) (Nat.le_of_not_lt h16)))).symm

theorem swab32_testBit (y j : Nat) :
    (swab32 y).testBit j
      = (decide (j < 32) && y.testBit (8 * (3 - j / 8) + j % 8)) := by
  unfold swab32
  rw [show (0x000000ff : Nat) = (2 ^ 8 - 1) <<< 0 by decide,
    show (0x0000ff00 : Nat) = (2 ^ 8 - 1) <<< 8 by decide,
    show (0x00ff0000 : Nat) = (2 ^ 8 - 1) <<< 16 by decide,
    show (0xff000000 : Nat) = (2 ^ 8 - 1) <<< 24 by decide]
  rw [Nat.testBit_or, Nat.testBit_or, Nat.testBit_or,
    Nat.testBit_shiftLeft, Nat.testBit_shiftLeft,
    Nat.testBit_shiftRight, Nat.testBit_shiftRight,
    testBit_and_block, testBit_and_block, testBit_and_block, testBit_and_block]
  by_cases h1 : j < 8
  · rw [decide_eq_false (show ¬(24 ≤ j) by omega),
      decide_eq_false (show ¬(8 ≤ j) by omega),
      decide_eq_false (show ¬(16 ≤ 8 + j) by omega),
      decide_eq_true (show 24 ≤ 24 + j by omega),
      decide_eq_true (show 24 + j < 24 + 8 by omega),
      decide_eq_true (show j < 32 by omega),
      show 8 * (3 - j / 8) + j % 8 = 24 + j by omega]
    simp
  · by_cases h2 : j < 16
    · rw [decide_eq_false (show ¬(24 ≤ j) by omega),
        decide_eq_true (show 8 ≤ j by omega),
        decide_eq_false (show ¬(8 ≤ j - 8) by omega),
        decide_eq_true (show 16 ≤ 8 + j by omega),
        decide_eq_true (show 8 + j < 16 + 8 by omega),
        decide_eq_true (show 24 ≤ 24 + j by omega),
        decide_eq_false (show ¬(24 + j < 24 + 8) by omega),
        decide_eq_true (show j < 32 by omega),
        show 8 * (3 - j / 8) + j % 8 = 8 + j by omega]
      simp
    · by_cases h3 : j < 24
      · rw [decide_eq_false (show ¬(24 ≤ j) by omega),
          decide_eq_true (show 8 ≤ j by omega),
          decide_eq_true (show 8 ≤ j - 8 by omega),
          decide_eq_true (show j - 8 < 8 + 8 by omega),
          decide_eq_true (show 16 ≤ 8 + j by omega),
          decide_eq_false (show ¬(8 + j < 16 + 8) by omega),
          decide_eq_true (show 24 ≤ 24 + j by omega),
          decide_eq_false (show ¬(24 + j < 24 + 8) by omega),
          decide_eq_true (show j < 32 by omega),
          show 8 * (3 - j / 8) + j % 8 = j - 8 by omega]
        simp
      · by_cases h4 : j < 32
        · rw [decide_eq_true (show 24 ≤ j by omega),
            decide_eq_true (show 0 ≤ j - 24 by omega),
            decide_eq_true (show j - 24 < 0 + 8 by omega),
            decide_eq_true (show 8 ≤ j by omega),
            decide_eq_true (show 8 ≤ j - 8 by omega),
            decide_eq_false (show ¬(j - 8 < 8 + 8) by omega),
            decide_eq_true (show 16 ≤ 8 + j by omega),
            decide_eq_false (show ¬(8 + j < 16 + 8) by omega),
            decide_eq_true (show 24 ≤ 24 + j by omega),
            decide_eq_false (show ¬(24 + j < 24 + 8) by omega),
            decide_eq_true (show j < 32 by omega),
            show 8 * (3 - j / 8) + j % 8 = j - 24 by omega]
          simp
        · rw [decide_eq_true (show 24 ≤ j by omega),
            decide_eq_false (show ¬(j - 24 < 0 + 8) by omega),
            decide_eq_true (show 8 ≤ j by omega),
            decide_eq_false (show ¬(j - 8 < 8 + 8) by omega),
            decide_eq_true (show 16 ≤ 8 + j by omega),
            decide_eq_false (show ¬(8 + j < 16 + 8) by omega),
            decide_eq_true (show 24 ≤ 24 + j by omega),
            decide_eq_false (show ¬(24 + j < 24 + 8) by omega),
            decide_eq_false (show ¬(j < 32) by omega)]
          simp

theorem swab32_swab32 (v : Nat) (h : v < 2 ^ 32) : swab32 (swab32 v) = v := by
  apply Nat.eq_of_testBit_eq
  intro i
  rw [swab32_testBit, swab32_testBit]
  by_cases h32 : i < 32
  · rw [decide_eq_true h32,
      decide_eq_true (show 8 * (3 - i / 8) + i % 8 < 32 by omega),
      show 8 * (3 - (8 * (3 - i / 8) + i % 8) / 8) + (8 * (3 - i / 8) + i % 8) % 8 = i by omega]
    simp
  · rw [decide_eq_false h32]
    simp only [Bool.false_and]
    exact (Nat.testBit_lt_two_pow
      (lt_of_lt_of_le h (Nat.pow_le_pow_right (by omega) (Nat.le_of_not_lt h32)))).symm
theorem swab64_testBit (y j : Nat) :
    (swab64 y).testBit j
      = (decide (j < 64) && y.testBit (8 * (7 - j / 8) + j % 8)) := by
  unfold swab64
  rw [show (0x00000000000000ff : Nat) = (2 ^ 8 - 1) <<< 0 by decide,
    show (0x000000000000ff00 : Nat) = (2 ^ 8 - 1) <<< 8 by decide,
    show (0x0000000000ff0000 : Nat) = (2 ^ 8 - 1) <<< 16 by decide,
    show (0x00000000ff000000 : Nat) = (2 ^ 8 - 1) <<< 24 by decide,
    show (0x000000ff00000000 : Nat) = (2 ^ 8 - 1) <<< 32 by decide,
    show (0x0000ff0000000000 : Nat) = (2 ^ 8 - 1) <<< 40 by decide,
    show (0x00ff000000000000 : Nat) = (2 ^ 8 - 1) <<< 48 by decide,
    show (0xff00000000000000 : Nat) = (2 ^ 8 - 1) <<< 56 by decide]
  rw [Nat.testBit_or, Nat.testBit_or, Nat.testBit_or, Nat.testBit_or, Nat.testBit_or, Nat.testBit_or, Nat.testBit_or,
    Nat.testBit_shiftLeft, Nat.testBit_shiftLeft, Nat.testBit_shiftLeft, Nat.testBit_shiftLeft,
    Nat.testBit_shiftRight, Nat.testBit_shiftRight, Nat.testBit_shiftRight, Nat.testBit_shiftRight,
    testBit_and_block, testBit_and_block, testBit_and_block, testBit_and_block, testBit_and_block, testBit_and_block, testBit_and_block, testBit_and_block]
  by_cases h1 : j < 8
  · rw [decide_eq_false (show ¬(56 ≤ j) by omega),
      decide_eq_true (show 0 ≤ j - 56 by omega),
      decide_eq_true (show j - 56 < 0 + 8 by omega),
      decide_eq_false (show ¬(40 ≤ j) by omega),
      decide_eq_false (show ¬(8 ≤ j - 40) by omega),
      decide_eq_true (show j - 40 < 8 + 8 by omega),
      decide_eq_false (show ¬(24 ≤ j) by omega),
      decide_eq_false (show ¬(16 ≤ j - 24) by omega),
      decide_eq_true (show j - 24 < 16 + 8 by omega),
      decide_eq_false (show ¬(8 ≤ j) by omega),
      decide_eq_false (show ¬(24 ≤ j - 8) by omega),
      decide_eq_true (show j - 8 < 24 + 8 by omega),
      decide_eq_false (show ¬(32 ≤ 8 + j) by omega),
      decide_eq_true (show 8 + j < 32 + 8 by omega),
      decide_eq_false (show ¬(40 ≤ 24 + j) by omega),
      decide_eq_true (show 24 + j < 40 + 8 by omega),
      decide_eq_false (show ¬(48 ≤ 40 + j) by omega),
      decide_eq_true (show 40 + j < 48 + 8 by omega),
      decide_eq_true (show 56 ≤ 56 + j by omega),
      decide_eq_true (show 56 + j < 56 + 8 by omega),
      decide_eq_true (show j < 64 by omega),
      show 8 * (7 - j / 8) + j % 8 = 56 + j by omega]
    simp
  by_cases h2 : j < 16
  · rw [decide_eq_false (show ¬(56 ≤ j) by omega),
      decide_eq_true (show 0 ≤ j - 56 by omega),
      decide_eq_true (show j - 56 < 0 + 8 by omega),
      decide_eq_false (show ¬(40 ≤ j) by omega),
      decide_eq_false (show ¬(8 ≤ j - 40) by omega),
      decide_eq_true (show j - 40 < 8 + 8 by omega),
      decide_eq_false (show ¬(24 ≤ j) by omega),
      decide_eq_false (show ¬(16 ≤ j - 24) by omega),
      decide_eq_true (show j - 24 < 16 + 8 by omega),
      decide_eq_true (show 8 ≤ j by omega),
      decide_eq_false (show ¬(24 ≤ j - 8) by omega),
      decide_eq_true (show j - 8 < 24 + 8 by omega),
      decide_eq_false (show ¬(32 ≤ 8 + j) by omega),
      decide_eq_true (show 8 + j < 32 + 8 by omega),
      decide_eq_false (show ¬(40 ≤ 24 + j) by omega),
      decide_eq_true (show 24 + j < 40 + 8 by omega),
      decide_eq_true (show 48 ≤ 40 + j by omega),
      decide_eq_true (show 40 + j < 48 + 8 by omega),
      decide_eq_true (show 56 ≤ 56 + j by omega),
      decide_eq_false (show ¬(56 + j < 56 + 8) by omega),
      decide_eq_true (show j < 64 by omega),
      show 8 * (7 - j / 8) + j % 8 = 40 + j by omega]
    simp
  by_cases h3 : j < 24
  · rw [decide_eq_false (show ¬(56 ≤ j) by omega),
      decide_eq_true (show 0 ≤ j - 56 by omega),
      decide_eq_true (show j - 56 < 0 + 8 by omega),
      decide_eq_false (show ¬(40 ≤ j) by omega),
      decide_eq_false (show ¬(8 ≤ j - 40) by omega),
      decide_eq_true (show j - 40 < 8 + 8 by omega),
      decide_eq_false (show ¬(24 ≤ j) by omega),
      decide_eq_false (show ¬(16 ≤ j - 24) by omega),
      decide_eq_true (show j - 24 < 16 + 8 by omega),
      decide_eq_true (show 8 ≤ j by omega),
      decide_eq_false (show ¬(24 ≤ j - 8) by omega),
      decide_eq_true (show j - 8 < 24 + 8 by omega),
      decide_eq_false (show ¬(32 ≤ 8 + j) by omega),
      decide_eq_true (show 8 + j < 32 + 8 by omega),
      decide_eq_true (show 40 ≤ 24 + j by omega),
      decide_eq_true (show 24 + j < 40 + 8 by omega),
      decide_eq_true (show 48 ≤ 40 + j by omega),
      decide_eq_false (show ¬(40 + j < 48 + 8) by omega),
      decide_eq_true (show 56 ≤ 56 + j by omega),
      decide_eq_false (show ¬(56 + j < 56 + 8) by omega),
      decide_eq_true (show j < 64 by omega),
      show 8 * (7 - j / 8) + j % 8 = 24 + j by omega]
    simp
  by_cases h4 : j < 32
  · rw [decide_eq_false (show ¬(56 ≤ j) by omega),
      decide_eq_true (show 0 ≤ j - 56 by omega),
      decide_eq_true (show j - 56 < 0 + 8 by omega),
      decide_eq_false (show ¬(40 ≤ j) by omega),
      decide_eq_false (show ¬(8 ≤ j - 40) by omega),
      decide_eq_true (show j - 40 < 8 + 8 by omega),
      decide_eq_true (show 24 ≤ j by omega),
      decide_eq_false (show ¬(16 ≤ j - 24) by omega),
      decide_eq_true (show j - 24 < 16 + 8 by omega),
      decide_eq_true (show 8 ≤ j by omega),
      decide_eq_false (show ¬(24 ≤ j - 8) by omega),
      decide_eq_true (show j - 8 < 24 + 8 by omega),
      decide_eq_true (show 32 ≤ 8 + j by omega),
      decide_eq_true (show 8 + j < 32 + 8 by omega),
      decide_eq_true (show 40 ≤ 24 + j by omega),
      decide_eq_false (show ¬(24 + j < 40 + 8) by omega),
      decide_eq_true (show 48 ≤ 40 + j by omega),
      decide_eq_false (show ¬(40 + j < 48 + 8) by omega),
      decide_eq_true (show 56 ≤ 56 + j by omega),
      decide_eq_false (show ¬(56 + j < 56 + 8) by omega),
      decide_eq_true (show j < 64 by omega),
      show 8 * (7 - j / 8) + j % 8 = 8 + j by omega]
    simp
  by_cases h5 : j < 40
  · rw [decide_eq_false (show ¬(56 ≤ j) by omega),
      decide_eq_true (show 0 ≤ j - 56 by omega),
      decide_eq_true (show j - 56 < 0 + 8 by omega),
      decide_eq_false (show ¬(40 ≤ j) by omega),
      decide_eq_false (show ¬(8 ≤ j - 40) by omega),
      decide_eq_true (show j - 40 < 8 + 8 by omega),
      decide_eq_true (show 24 ≤ j by omega),
      decide_eq_false (show ¬(16 ≤ j - 24) by omega),
      decide_eq_true (show j - 24 < 16 + 8 by omega),
      decide_eq_true (show 8 ≤ j by omega),
      decide_eq_true (show 24 ≤ j - 8 by omega),
      decide_eq_true (show j - 8 < 24 + 8 by omega),
      decide_eq_true (show 32 ≤ 8 + j by omega),
      decide_eq_false (show ¬(8 + j < 32 + 8) by omega),
      decide_eq_true (show 40 ≤ 24 + j by omega),
      decide_eq_false (show ¬(24 + j < 40 + 8) by omega),
      decide_eq_true (show 48 ≤ 40 + j by omega),
      decide_eq_false (show ¬(40 + j < 48 + 8) by omega),
      decide_eq_true (show 56 ≤ 56 + j by omega),
      decide_eq_false (show ¬(56 + j < 56 + 8) by omega),
      decide_eq_true (show j < 64 by omega),
      show 8 * (7 - j / 8) + j % 8 = j - 8 by omega]
    simp
  by_cases h6 : j < 48
  · rw [decide_eq_false (show ¬(56 ≤ j) by omega),
      decide_eq_true (show 0 ≤ j - 56 by omega),
      decide_eq_true (show j - 56 < 0 + 8 by omega),
      decide_eq_true (show 40 ≤ j by omega),
      decide_eq_false (show ¬(8 ≤ j - 40) by omega),
      decide_eq_true (show j - 40 < 8 + 8 by omega),
      decide_eq_true (show 24 ≤ j by omega),
      decide_eq_true (show 16 ≤ j - 24 by omega),
      decide_eq_true (show j - 24 < 16 + 8 by omega),
      decide_eq_true (show 8 ≤ j by omega),
      decide_eq_true (show 24 ≤ j - 8 by omega),
      decide_eq_false (show ¬(j - 8 < 24 + 8) by omega),
      decide_eq_true (show 32 ≤ 8 + j by omega),
      decide_eq_false (show ¬(8 + j < 32 + 8) by omega),
      decide_eq_true (show 40 ≤ 24 + j by omega),
      decide_eq_false (show ¬(24 + j < 40 + 8) by omega),
      decide_eq_true (show 48 ≤ 40 + j by omega),
      decide_eq_false (show ¬(40 + j < 48 + 8) by omega),
      decide_eq_true (show 56 ≤ 56 + j by omega),
      decide_eq_false (show ¬(56 + j < 56 + 8) by omega),
      decide_eq_true (show j < 64 by omega),
      show 8 * (7 - j / 8) + j % 8 = j - 24 by omega]
    simp
  by_cases h7 : j < 56
  · rw [decide_eq_false (show ¬(56 ≤ j) by omega),
      decide_eq_true (show 0 ≤ j - 56 by omega),
      decide_eq_true (show j - 56 < 0 + 8 by omega),
      decide_eq_true (show 40 ≤ j by omega),
      decide_eq_true (show 8 ≤ j - 40 by omega),
      decide_eq_true (show j - 40 < 8 + 8 by omega),
      decide_eq_true (show 24 ≤ j by omega),
      decide_eq_true (show 16 ≤ j - 24 by omega),
      decide_eq_false (show ¬(j - 24 < 16 + 8) by omega),
      decide_eq_true (show 8 ≤ j by omega),
      decide_eq_true (show 24 ≤ j - 8 by omega),
      decide_eq_false (show ¬(j - 8 < 24 + 8) by omega),
      decide_eq_true (show 32 ≤ 8 + j by omega),
      decide_eq_false (show ¬(8 + j < 32 + 8) by omega),
      decide_eq_true (show 40 ≤ 24 + j by omega),
      decide_eq_false (show ¬(24 + j < 40 + 8) by omega),
      decide_eq_true (show 48 ≤ 40 + j by omega),
      decide_eq_false (show ¬(40 + j < 48 + 8) by omega),
      decide_eq_true (show 56 ≤ 56 + j by omega),
      decide_eq_false (show ¬(56 + j < 56 + 8) by omega),
      decide_eq_true (show j < 64 by omega),
      show 8 * (7 - j / 8) + j % 8 = j - 40 by omega]
    simp
  by_cases h8 : j < 64
  · rw [decide_eq_true (show 56 ≤ j by omega),
      decide_eq_true (show 0 ≤ j - 56 by omega),
      decide_eq_true (show j - 56 < 0 + 8 by omega),
      decide_eq_true (show 40 ≤ j by omega),
      decide_eq_true (show 8 ≤ j - 40 by omega),
      decide_eq_false (show ¬(j - 40 < 8 + 8) by omega),
      decide_eq_true (show 24 ≤ j by omega),
      decide_eq_true (show 16 ≤ j - 24 by omega),
      decide_eq_false (show ¬(j - 24 < 16 + 8) by omega),
      decide_eq_true (show 8 ≤ j by omega),
      decide_eq_true (show 24 ≤ j - 8 by omega),
      decide_eq_false (show ¬(j - 8 < 24 + 8) by omega),
      decide_eq_true (show 32 ≤ 8 + j by omega),
      decide_eq_false (show ¬(8 + j < 32 + 8) by omega),
      decide_eq_true (show 40 ≤ 24 + j by omega),
      decide_eq_false (show ¬(24 + j < 40 + 8) by omega),
      decide_eq_true (show 48 ≤ 40 + j by omega),
      decide_eq_false (show ¬(40 + j < 48 + 8) by omega),
      decide_eq_true (show 56 ≤ 56 + j by omega),
      decide_eq_false (show ¬(56 + j < 56 + 8) by omega),
      decide_eq_true (show j < 64 by omega),
      show 8 * (7 - j / 8) + j % 8 = j - 56 by omega]
    simp
  rw [decide_eq_true (show 56 ≤ j by omega),
    decide_eq_true (show 0 ≤ j - 56 by omega),
    decide_eq_false (show ¬(j - 56 < 0 + 8) by omega),
    decide_eq_true (show 40 ≤ j by omega),
    decide_eq_true (show 8 ≤ j - 40 by omega),
    decide_eq_false (show ¬(j - 40 < 8 + 8) by omega),
    decide_eq_true (show 24 ≤ j by omega),
    decide_eq_true (show 16 ≤ j - 24 by omega),
    decide_eq_false (show ¬(j - 24 < 16 + 8) by omega),
    decide_eq_true (show 8 ≤ j by omega),
    decide_eq_true (show 24 ≤ j - 8 by omega),
    decide_eq_false (show ¬(j - 8 < 24 + 8) by omega),
    decide_eq_true (show 32 ≤ 8 + j by omega),
    decide_eq_false (show ¬(8 + j < 32 + 8) by omega),
    decide_eq_true (show 40 ≤ 24 + j by omega),
    decide_eq_false (show ¬(24 + j < 40 + 8) by omega),
    decide_eq_true (show 48 ≤ 40 + j by omega),
    decide_eq_false (show ¬(40 + j < 48 + 8) by omega),
    decide_eq_true (show 56 ≤ 56 + j by omega),
    decide_eq_false (show ¬(56 + j < 56 + 8) by omega),
    decide_eq_false (show ¬(j < 64) by omega)]
  simp

theorem swab64_swab64 (v : Nat) (h : v < 2 ^ 64) : swab64 (swab64 v) = v := by
  apply Nat.eq_of_testBit_eq
  intro i
  rw [swab64_testBit, swab64_testBit]
  by_cases h64 : i < 64
  · rw [decide_eq_true h64,
      decide_eq_true (show 8 * (7 - i / 8) + i % 8 < 64 by omega),
      show 8 * (7 - (8 * (7 - i / 8) + i % 8) / 8) + (8 * (7 - i / 8) + i % 8) % 8 = i by omega]
    simp
  · rw [decide_eq_false h64]
    simp only [Bool.false_and]
    exact (Nat.testBit_lt_two_pow
      (lt_of_lt_of_le h (Nat.pow_le_pow_right (by omega) (Nat.le_of_not_lt h64)))).symm

theorem swah32_testBit (y j : Nat) :
    (swah32 y).testBit j
      = (decide (j < 32) && y.testBit (16 * (1 - j / 16) + j % 16)) := by
  unfold swah32
  rw [show (0x0000ffff : Nat) = (2 ^ 16 - 1) <<< 0 by decide,
    show (0xffff0000 : Nat) = (2 ^ 16 - 1) <<< 16 by decide]
  rw [Nat.testBit_or, Nat.testBit_shiftLeft, Nat.testBit_shiftRight,
    testBit_and_block, testBit_and_block]
  by_cases h1 : j < 16
  · rw [decide_eq_false (show ¬(16 ≤ j) by omega),
      decide_eq_true (show 16 ≤ 16 + j by omega),
      decide_eq_true (show 16 + j < 16 + 16 by omega),
      decide_eq_true (show j < 32 by omega),
      show 16 * (1 - j / 16) + j % 16 = 16 + j by omega]
    simp
  by_cases h2 : j < 32
  · rw [decide_eq_true (show 16 ≤ j by omega),
      decide_eq_true (show 0 ≤ j - 16 by omega),
      decide_eq_true (show j - 16 < 0 + 16 by omega),
      decide_eq_true (show 16 ≤ 16 + j by omega),
      decide_eq_false (show ¬(16 + j < 16 + 16) by omega),
      decide_eq_true (show j < 32 by omega),
      show 16 * (1 - j / 16) + j % 16 = j - 16 by omega]
    simp
  rw [decide_eq_true (show 16 ≤ j by omega),
    decide_eq_false (show ¬(j - 16 < 0 + 16) by omega),
    decide_eq_true (show 16 ≤ 16 + j by omega),
    decide_eq_false (show ¬(16 + j < 16 + 16) by omega),
    decide_eq_false (show ¬(j < 32) by omega)]
  simp

theorem swah32_swah32 (v : Nat) (h : v < 2 ^ 32) : swah32 (swah32 v) = v := by
  apply Nat.eq_of_testBit_eq
  intro i
  rw [swah32_testBit, swah32_testBit]
  by_cases h32 : i < 32
  · rw [decide_eq_true h32,
      decide_eq_true (show 16 * (1 - i / 16) + i % 16 < 32 by omega),
      show 16 * (1 - (16 * (1 - i / 16) + i % 16) / 16) + (16 * (1 - i / 16) + i % 16) % 16 = i
        by omega]
    simp
  · rw [decide_eq_false h32]
    simp only [Bool.false_and]
    exact (Nat.testBit_lt_two_pow
      (lt_of_lt_of_le h (Nat.pow_le_pow_right (by omega) (Nat.le_of_not_lt h32)))).symm

theorem testBit_00ff00ff (j : Nat) :
    (0x00ff00ff : Nat).testBit j = (decide (j < 32) && decide (j % 16 < 8)) := by
  rw [show (0x00ff00ff : Nat) = ((2 ^ 8 - 1) <<< 0) ||| ((2 ^ 8 - 1) <<< 16) by decide,
    Nat.testBit_or, Nat.testBit_shiftLeft, Nat.testBit_shiftLeft,
    Nat.testBit_two_pow_sub_one, Nat.testBit_two_pow_sub_one]
  by_cases h1 : j < 8
  · rw [decide_eq_true (show 0 ≤ j by omega),
      decide_eq_true (show j - 0 < 8 by omega),
      decide_eq_false (show ¬(16 ≤ j) by omega),
      decide_eq_true (show j < 32 by omega),
      decide_eq_true (show j % 16 < 8 by omega)]
    simp
  by_cases h2 : j < 16
  · rw [decide_eq_true (show 0 ≤ j by omega),
      decide_eq_false (show ¬(j - 0 < 8) by omega),
      decide_eq_false (show ¬(16 ≤ j) by omega),
      decide_eq_false (show ¬(j % 16 < 8) by omega)]
    simp
  by_cases h3 : j < 24
  · rw [decide_eq_true (show 0 ≤ j by omega),
      decide_eq_false (show ¬(j - 0 < 8) by omega),
      decide_eq_true (show 16 ≤ j by omega),
      decide_eq_true (show j - 16 < 8 by omega),
      decide_eq_true (show j < 32 by omega),
      decide_eq_true (show j % 16 < 8 by omega)]
    simp
  by_cases h4 : j < 32
  · rw [decide_eq_true (show 0 ≤ j by omega),
      decide_eq_false (show ¬(j - 0 < 8) by omega),
      decide_eq_true (show 16 ≤ j by omega),
      decide_eq_false (show ¬(j - 16 < 8) by omega),
      decide_eq_false (show ¬(j % 16 < 8) by omega)]
    simp
  rw [decide_eq_true (show 0 ≤ j by omega),
    decide_eq_false (show ¬(j - 0 < 8) by omega),
    decide_eq_true (show 16 ≤ j by omega),
    decide_eq_false (show ¬(j - 16 < 8) by omega),
    decide_eq_false (show ¬(j < 32) by omega)]
  simp

theorem testBit_ff00ff00 (j : Nat) :
    (0xff00ff00 : Nat).testBit j = (decide (j < 32) && decide (8 ≤ j % 16)) := by
  rw [show (0xff00ff00 : Nat) = ((2 ^ 8 - 1) <<< 8) ||| ((2 ^ 8 - 1) <<< 24) by decide,
    Nat.testBit_or, Nat.testBit_shiftLeft, Nat.testBit_shiftLeft,
    Nat.testBit_two_pow_sub_one, Nat.testBit_two_pow_sub_one]
  by_cases h1 : j < 8
  · rw [decide_eq_false (show ¬(8 ≤ j) by omega),
      decide_eq_false (show ¬(24 ≤ j) by omega),
      decide_eq_false (show ¬(8 ≤ j % 16) by omega)]
    simp
  by_cases h2 : j < 16
  · rw [decide_eq_true (show 8 ≤ j by omega),
      decide_eq_true (show j - 8 < 8 by omega),
      decide_eq_false (show ¬(24 ≤ j) by omega),
      decide_eq_true (show j < 32 by omega),
      decide_eq_true (show 8 ≤ j % 16 by omega)]
    simp
  by_cases h3 : j < 24
  · rw [decide_eq_true (show 8 ≤ j by omega),
      decide_eq_false (show ¬(j - 8 < 8) by omega),
      decide_eq_false (show ¬(24 ≤ j) by omega),
      decide_eq_false (show ¬(8 ≤ j % 16) by omega)]
    simp
  by_cases h4 : j < 32
  · rw [decide_eq_true (show 8 ≤ j by omega),
      decide_eq_false (show ¬(j - 8 < 8) by omega),
      decide_eq_true (show 24 ≤ j by omega),
      decide_eq_true (show j - 24 < 8 by omega),
      decide_eq_true (show j < 32 by omega),
      decide_eq_true (show 8 ≤ j % 16 by omega)]
    simp
  rw [decide_eq_true (show 8 ≤ j by omega),
    decide_eq_false (show ¬(j - 8 < 8) by omega),
    decide_eq_true (show 24 ≤ j by omega),
    decide_eq_false (show ¬(j - 24 < 8) by omega),
    decide_eq_false (show ¬(j < 32) by omega)]
  simp

theorem swahb32_testBit (y j : Nat) :
    (swahb32 y).testBit j
      = (decide (j < 32) && y.testBit (16 * (j / 16) + (j % 16 + 8) % 16)) := by
  unfold swahb32
  rw [Nat.testBit_or, Nat.testBit_shiftLeft, Nat.testBit_shiftRight,
    Nat.testBit_and, Nat.testBit_and, testBit_00ff00ff, testBit_ff00ff00]
  by_cases h1 : j < 8
  · rw [decide_eq_false (show ¬(8 ≤ j) by omega),
      decide_eq_true (show 8 + j < 32 by omega),
      decide_eq_true (show 8 ≤ (8 + j) % 16 by omega),
      decide_eq_true (show j < 32 by omega),
      show 16 * (j / 16) + (j % 16 + 8) % 16 = 8 + j by omega]
    simp
  by_cases h2 : j < 16
  · rw [decide_eq_true (show 8 ≤ j by omega),
      decide_eq_true (show j - 8 < 32 by omega),
      decide_eq_true (show (j - 8) % 16 < 8 by omega),
      decide_eq_true (show 8 + j < 32 by omega),
      decide_eq_false (show ¬(8 ≤ (8 + j) % 16) by omega),
      decide_eq_true (show j < 32 by omega),
      show 16 * (j / 16) + (j % 16 + 8) % 16 = j - 8 by omega]
    simp
  by_cases h3 : j < 24
  · rw [decide_eq_true (show 8 ≤ j by omega),
      decide_eq_true (show j - 8 < 32 by omega),
      decide_eq_false (show ¬((j - 8) % 16 < 8) by omega),
      decide_eq_true (show 8 + j < 32 by omega),
      decide_eq_true (show 8 ≤ (8 + j) % 16 by omega),
      decide_eq_true (show j < 32 by omega),
      show 16 * (j / 16) + (j % 16 + 8) % 16 = 8 + j by omega]
    simp
  by_cases h4 : j < 32
  · rw [decide_eq_true (show 8 ≤ j by omega),
      decide_eq_true (show j - 8 < 32 by omega),
      decide_eq_true (show (j - 8) % 16 < 8 by omega),
      decide_eq_false (show ¬(8 + j < 32) by omega),
      decide_eq_true (show j < 32 by omega),
      show 16 * (j / 16) + (j % 16 + 8) % 16 = j - 8 by omega]
    simp
  by_cases h5 : j < 40
  · rw [decide_eq_true (show 8 ≤ j by omega),
      decide_eq_true (show j - 8 < 32 by omega),
      decide_eq_false (show ¬((j - 8) % 16 < 8) by omega),
      decide_eq_false (show ¬(8 + j < 32) by omega),
      decide_eq_false (show ¬(j < 32) by omega)]
    simp
  rw [decide_eq_true (show 8 ≤ j by omega),
    decide_eq_false (show ¬(j - 8 < 32) by omega),
    decide_eq_false (show ¬(8 + j < 32) by omega),
    decide_eq_false (show ¬(j < 32) by omega)]
  simp

theorem swahb32_swahb32 (v : Nat) (h : v < 2 ^ 32) : swahb32 (swahb32 v) = v := by
  apply Nat.eq_of_testBit_eq
  intro i
  rw [swahb32_testBit, swahb32_testBit]
  by_cases h32 : i < 32
  · rw [decide_eq_true h32,
      decide_eq_true (show 16 * (i / 16) + (i % 16 + 8) % 16 < 32 by omega),
      show 16 * ((16 * (i / 16) + (i % 16 + 8) % 16) / 16)
          + ((16 * (i / 16) + (i % 16 + 8) % 16) % 16 + 8) % 16 = i by omega]
    simp
  · rw [decide_eq_false h32]
    simp only [Bool.false_and]
    exact (Nat.testBit_lt_two_pow
      (lt_of_lt_of_le h (Nat.pow_le_pow_right (by omega) (Nat.le_of_not_lt h32)))).symm

/-- C7: each byte/field swap is self-inverse at its width: `swab16` below
`2^16`, `swab32`, `swah32` and `swahb32` below `2^32`, and `swab64` below
`2^64`. -/
theorem c7_swaps_self_inverse (v : Nat) :
    (v < 2 ^ 16 → swab16 (swab16 v) = v)
      ∧ (v < 2 ^ 32 → swab32 (swab32 v) = v ∧ swah32 (swah32 v) = v ∧ swahb32 (swahb32 v) = v)
      ∧ (v < 2 ^ 64 → swab64 (swab64 v) = v) :=
  ⟨fun h => swab16_swab16 v h,
   fun h => ⟨swab32_swab32 v h, swah32_swah32 v h, swahb32_swahb32 v h⟩,
   fun h => swab64_swab64 v h⟩

theorem c7_witness :
    swab16 (swab16 0x1234) = 0x1234
      ∧ swab32 (swab32 0x12345678) = 0x12345678
      ∧ swah32 (swah32 0x12345678) = 0x12345678
      ∧ swahb32 (swahb32 0x12345678) = 0x12345678
      ∧ swab64 (swab64 0x123456789abcdef0) = 0x123456789abcdef0 :=
  ⟨(c7_swaps_self_inverse 0x1234).1 (by decide),
   ((c7_swaps_self_inverse 0x12345678).2.1 (by decide)).1,
   ((c7_swaps_self_inverse 0x12345678).2.1 (by decide)).2.1,
   ((c7_swaps_self_inverse 0x12345678).2.1 (by decide)).2.2,
   (c7_swaps_self_inverse 0x123456789abcdef0).2.2 (by decide)⟩

/-! ## Size parsing and reporting (claims C6, C9, C10)

The JEDEC binary-multiple constants, the `_size_re`/`_sizeunit_re`
regular expressions, `_str_is_bytes`, `inspect_bytes` and `size` from the
source.  Numbers (Python floats) are exact rationals here. -/

/-- `K = 0x400` and friends (JEDEC, base 2). -/
def K : ℚ := 0x400

def M : ℚ := 0x100000

def G : ℚ := 0x40000000

def T : ℚ := 0x10000000000

def P : ℚ := 0x4000000000000

def E : ℚ := 0x1000000000000000

def Z : ℚ := 0x400000000000000000

def Y : ℚ := 0x100000000000000000000

/-- `k = K` (metric alias). -/
def k : ℚ := K

/-- `_mult_map`: the prefix-letter → multiplier dictionary (a `KeyError`
on a missing key is `none`; the callers only ever look up letters of the
regex class, so the `none` case is unreachable). -/
def multMap : Char → Option ℚ
  | 'k' => some k
  | 'K' => some K
  | 'm' => some M
  | 'M' => some M
  | 'g' => some G
  | 'G' => some G
  | 't' => some T
  | 'T' => some T
  | 'p' => some P
  | 'P' => some P
  | 'e' => some E
  | 'E' => some E
  | 'z' => some Z
  | 'Z' => some Z
  | 'y' => some Y
  | 'Y' => some Y
  | _ => none

/-- The character class `[kKmMgGtTpPeEzZyY]` of the size regexes. -/
def isMultChar (c : Char) : Bool :=
  c = 'k' || c = 'K' || c = 'm' || c = 'M' || c = 'g' || c = 'G' ||
  c = 't' || c = 'T' || c = 'p' || c = 'P' || c = 'e' || c = 'E' ||
  c = 'z' || c = 'Z' || c = 'y' || c = 'Y'

/-- The character class `[0-9\.]` of `_size_re`'s first group. -/
def isDigitDotChar (c : Char) : Bool := c = '.' || ('0' ≤ c && c ≤ '9')

/-- The `\s` class (ASCII fragment). -/
def isSpaceChar (c : Char) : Bool :=
  c = ' ' || c = '\t' || c = '\n' || c = '\r' || c = '\x0b' || c = '\x0c'

/-- The character class `[bB]` opening the unit group. -/
def isbB (c : Char) : Bool := c = 'b' || c = 'B'

/-- Match `[bB].*` at the current position: one `b`/`B`, then everything up
to (not including) a newline, captured as group 3. -/
def matchB (l : List Char) : Option (List Char) :=
  match l with
  | c :: rest => if isbB c then some (c :: rest.takeWhile (fun d => !(d == '\n'))) else none
  | [] => none

/-- Match `i?[bB].*`: the optional `i` is consumed greedily; if the rest
then fails, the regex retries without it (which can only succeed when the
current character itself is `b`/`B`, i.e. never after consuming an `i`,
but the faithful backtracking structure is kept). -/
def matchI (l : List Char) : Option (List Char) :=
  match l with
  | 'i' :: rest =>
    match matchB rest with
    | some g3 => some g3
    | none => matchB l
  | _ => matchB l

/-- Match `([kKmMgGtTpPeEzZyY]?)i?([bB].*)` at the current position,
returning (group2, group3).  The optional prefix letter is greedy; since
the prefix class is disjoint from `i`, `b` and `B`, giving the letter back
on failure can never make the rest match, so no further backtracking is
needed. -/
def matchTail (l : List Char) : Option (List Char × List Char) :=
  match l with
  | c :: rest =>
    if isMultChar c then (matchI rest).map (fun g3 => ([c], g3))
    else (matchI l).map (fun g3 => (([] : List Char), g3))
  | [] => none

/-- Match `_size_re = ([0-9\.]*)\s*([kKmMgGtTpPeEzZyY]?)i?([bB].*)` at the
current position.  Group 1 and the whitespace are greedy; their classes
are disjoint from everything that follows, so greediness is safe. -/
def matchSizeAt (s : List Char) : Option (List Char × List Char × List Char) :=
  let g1 := s.takeWhile isDigitDotChar
  let r1 := s.dropWhile isDigitDotChar
  let r2 := r1.dropWhile isSpaceChar
  (matchTail r2).map (fun p => (g1, p.1, p.2))

/-- `_size_re.search(s)`: try the pattern at each start position from the
left, returning the first (leftmost) match. -/
def searchSize : List Char → Option (List Char × List Char × List Char)
  | [] => matchSizeAt []
  | s@(_ :: rest) =>
    match matchSizeAt s with
    | some r => some r
    | none => searchSize rest

/-- `_sizeunit_re.search(s)` for `([kKmMgGtTpPeEzZyY]?)i?([bB].*)`. -/
def searchSizeUnit : List Char → Option (List Char × List Char)
  | [] => matchTail []
  | s@(_ :: rest) =>
    match matchTail s with
    | some r => some r
    | none => searchSizeUnit rest

/-- Value of a decimal digit string. -/
def decDigitsVal (l : List Char) : Nat := l.foldl (fun a c => a * 10 + (c.toNat - 48)) 0

/-- Python `float()` applied to the `[0-9\.]*` capture: a `ValueError`
(`none`) on the empty string, a lone dot, or more than one dot; otherwise
the exact decimal value `intpart.fracpart`. -/
def pyFloatOfGroup (s : List Char) : Option ℚ :=
  if 2 ≤ s.count '.' then none
  else
    let ip := s.takeWhile (fun c => !(c == '.'))
    let fp := (s.dropWhile (fun c => !(c == '.'))).drop 1
    if ip.isEmpty && fp.isEmpty then none
    else some ((decDigitsVal ip : ℚ) + (decDigitsVal fp : ℚ) / 10 ^ fp.length)

/-- ASCII `str.lower` on one character. -/
def pyLower (c : Char) : Char :=
  if 'A' ≤ c ∧ c ≤ 'Z' then Char.ofNat (c.toNat + 32) else c

/-- `_str_is_bytes(s)`: `True` for bytes, `False` for bits, `None` when
unknown.  (On the empty string the original would raise `IndexError` at
`s[0]`; the callers only pass the nonempty `[bB].*` capture, and this
model returns `none` there.) -/
def strIsBytes (s : List Char) : Option Bool :=
  if (s.map pyLower).take 4 = ['b', 'y', 't', 'e'] then some true
  else if (s.map pyLower).take 3 = ['b', 'i', 't'] then some false
  else
    match s with
    | 'B' :: _ => some true
    | 'b' :: _ => some false
    | _ => none

/-- The exceptions `size` can raise. -/
inductive SizeErr where
  | unrecognizedValue : SizeErr
  | unitRequired : SizeErr
  | unrecognizedUnit : SizeErr
  | floatValueError : SizeErr
  | keyError : SizeErr
  | unknownBitsBytes : SizeErr
deriving DecidableEq

/-- `"%d" % q` on a float: truncation toward zero. -/
def pyTrunc (q : ℚ) : Int := if 0 ≤ q then ⌊q⌋ else ⌈q⌉

/-- `round(q, 3)`.  (Python rounds floats half-to-even; this model rounds
half away from zero via Mathlib's `round` — the difference never matters
to the claims below, which only need the report to be a deterministic
function of the byte count.) -/
def round3 (q : ℚ) : ℚ := (round (q * 1000) : ℚ) / 1000

/-- The numbers printed by `inspect_bytes`, in print order. -/
structure ByteReport where
  bytesLine : Int
  kbLine : ℚ
  mbLine : ℚ
  gbLine : ℚ
  tbLine : ℚ
  bitsLine : Int
  kbitLine : ℚ
  mbitLine : ℚ
  gbitLine : ℚ
  tbitLine : ℚ
deriving DecidableEq

set_option linter.unusedVariables false in
/-- `inspect_bytes(num_bytes, metric=False)`: the byte count at B/KB/MB/
GB/TB scale and the bit count (`num_bytes * 8.0`) at b/Kb/Mb/Gb/Tb scale.
The `metric` parameter is accepted and never read, exactly as in the
source. -/
def inspect_bytes (numBytes : ℚ) (metric : Bool) : ByteReport :=
  { bytesLine := pyTrunc numBytes
    kbLine := round3 (numBytes / K)
    mbLine := round3 (numBytes / M)
    gbLine := round3 (numBytes / G)
    tbLine := round3 (numBytes / T)
    bitsLine := pyTrunc (numBytes * 8)
    kbitLine := round3 (numBytes * 8 / K)
    mbitLine := round3 (numBytes * 8 / M)
    gbitLine := round3 (numBytes * 8 / G)
    tbitLine := round3 (numBytes * 8 / T) }

/-- Everything `size` prints: the `Interpreting input as …` line (truncated
number, multiplier string, `"Bytes"`/`"bits"`), the byte count handed to
`inspect_bytes`, and that report.  `rawNum` and `mult` additionally record
the parsed magnitude and multiplier so that claims can speak about them. -/
structure SizeOutput where
  interpNum : Int
  interpMult : List Char
  interpUnit : List Char
  rawNum : ℚ
  mult : ℚ
  numBytes : ℚ
  report : ByteReport
deriving DecidableEq

/-- The two call shapes of `size(val, unit=None)`: a string, or a number
with an optional unit string. -/
inductive SizeInput where
  | str : List Char → SizeInput
  | num : ℚ → Option (List Char) → SizeInput

/-- The tail of `size` after parsing: multiplier lookup (empty prefix
means 1), the bits/bytes decision, and the byte-equivalent computation —
`mult * num` for bytes, `(mult * num) / 8.0` for bits. -/
def sizeFinish (num : ℚ) (multStr : List Char) (g3 : List Char) (metric : Bool) :
    Except SizeErr SizeOutput :=
  match (if multStr.isEmpty then some (1 : ℚ)
         else
           match multStr with
           | [c] => multMap c
           | _ => none) with
  | none => Except.error SizeErr.keyError
  | some mult =>
    match strIsBytes g3 with
    | none => Except.error SizeErr.unknownBitsBytes
    | some true =>
      Except.ok
        { interpNum := pyTrunc num, interpMult := multStr,
          interpUnit := ['B', 'y', 't', 'e', 's'], rawNum := num, mult := mult,
          numBytes := mult * num, report := inspect_bytes (mult * num) metric }
    | some false =>
      Except.ok
        { interpNum := pyTrunc num, interpMult := multStr,
          interpUnit := ['b', 'i', 't', 's'], rawNum := num, mult := mult,
          numBytes := mult * num / 8, report := inspect_bytes (mult * num / 8) metric }

/-- `size(val, unit=None, metric=False)`: parse a size from a string (via
`_size_re`) or from a number plus unit string (via `_sizeunit_re`), then
report it. -/
def size (val : SizeInput) (metric : Bool) : Except SizeErr SizeOutput :=
  match val with
  | SizeInput.str s =>
    match searchSize s with
    | none => Except.error SizeErr.unrecognizedValue
    | some (g1, g2, g3) =>
      match pyFloatOfGroup g1 with
      | none => Except.error SizeErr.floatValueError
      | some num => sizeFinish num g2 g3 metric
  | SizeInput.num v u =>
    match u with
    | none => Except.error SizeErr.unitRequired
    | some unit =>
      match searchSizeUnit unit with
      | none => Except.error SizeErr.unrecognizedUnit
      | some (g2, g3) => sizeFinish v g2 g3 metric

/-! ### Claims C6, C9, C10 -/

/-- Predicate for C10: the result is the `size(): Unable to determine if
bits or bytes were specified` error. -/
def isUnknownBitsBytesErr (r : Except SizeErr SizeOutput) : Bool :=
  match r with
  | Except.error SizeErr.unknownBitsBytes => true
  | _ => false

theorem matchB_shape {l g3 : List Char} (h : matchB l = some g3) :
    ∃ c r, g3 = c :: r ∧ isbB c = true := by
  cases l with
  | nil => exact absurd h (by simp [matchB])
  | cons c rest =>
    rw [show matchB (c :: rest)
        = if isbB c then some (c :: rest.takeWhile (fun d => !(d == '\n'))) else none
      from rfl] at h
    by_cases hb : isbB c
    · rw [if_pos hb] at h
      injection h with h2
      exact ⟨c, rest.takeWhile (fun d => !(d == '\n')), h2.symm, hb⟩
    · rw [if_neg hb] at h
      exact absurd h (by simp)

theorem matchI_shape {l g3 : List Char} (h : matchI l = some g3) :
    ∃ c r, g3 = c :: r ∧ isbB c = true := by
  rw [matchI.eq_def] at h
  split at h
  · rename_i rest
    cases hmb : matchB rest with
    | some g =>
      rw [hmb] at h
      simp at h
      subst h
      exact matchB_shape hmb
    | none =>
      rw [hmb] at h
      simp at h
      exact matchB_shape h
  · exact matchB_shape h

theorem matchTail_shape {l g2 g3 : List Char} (h : matchTail l = some (g2, g3)) :
    ∃ c r, g3 = c :: r ∧ isbB c = true := by
  cases l with
  | nil => exact absurd h (by simp [matchTail])
  | cons c rest =>
    rw [show matchTail (c :: rest)
        = if isMultChar c then (matchI rest).map (fun g3 => ([c], g3))
          else (matchI (c :: rest)).map (fun g3 => (([] : List Char), g3)) from rfl] at h
    by_cases hm : isMultChar c
    · rw [if_pos hm] at h
      cases hmi : matchI rest with
      | none => rw [hmi] at h; exact absurd h (by simp)
      | some g =>
        rw [hmi] at h
        simp at h
        rw [← h.2]
        exact matchI_shape hmi
    · rw [if_neg hm] at h
      cases hmi : matchI (c :: rest) with
      | none => rw [hmi] at h; exact absurd h (by simp)
      | some g =>
        rw [hmi] at h
        simp at h
        rw [← h.2]
        exact matchI_shape hmi

theorem matchSizeAt_shape {s g1 g2 g3 : List Char}
    (h : matchSizeAt s = some (g1, g2, g3)) : ∃ c r, g3 = c :: r ∧ isbB c = true := by
  rw [show matchSizeAt s
      = Option.map (fun p => (s.takeWhile isDigitDotChar, p.1, p.2))
          (matchTail ((s.dropWhile isDigitDotChar).dropWhile isSpaceChar)) from rfl] at h
  cases hmt : matchTail ((s.dropWhile isDigitDotChar).dropWhile isSpaceChar) with
  | none => rw [hmt] at h; exact absurd h (by simp)
  | some g =>
    obtain ⟨a, b⟩ := g
    rw [hmt] at h
    simp at h
    rw [← h.2.2]
    exact matchTail_shape hmt

theorem searchSize_shape :
    ∀ {s g1 g2 g3 : List Char}, searchSize s = some (g1, g2, g3) →
      ∃ c r, g3 = c :: r ∧ isbB c = true := by
  intro s
  induction s with
  | nil =>
    intro g1 g2 g3 h
    exact absurd h (by simp [searchSize, matchSizeAt, matchTail])
  | cons a rest ih =>
    intro g1 g2 g3 h
    rw [show searchSize (a :: rest)
        = (match matchSizeAt (a :: rest) with
            | some r => some r
            | none => searchSize rest) from rfl] at h
    cases hm : matchSizeAt (a :: rest) with
    | some r =>
      obtain ⟨r1, r2, r3⟩ := r
      rw [hm] at h
      have h3 : r3 = g3 := by
        injection h with h2
        exact congrArg (fun t => t.2.2) h2
      subst h3
      exact matchSizeAt_shape hm
    | none =>
      rw [hm] at h
      exact ih h

theorem searchSizeUnit_shape :
    ∀ {s g2 g3 : List Char}, searchSizeUnit s = some (g2, g3) →
      ∃ c r, g3 = c :: r ∧ isbB c = true := by
  intro s
  induction s with
  | nil =>
    intro g2 g3 h
    have hnone : searchSizeUnit ([] : List Char) = none := rfl
    rw [hnone] at h
    exact absurd h (by simp)
  | cons a rest ih =>
    intro g2 g3 h
    rw [show searchSizeUnit (a :: rest)
        = (match matchTail (a :: rest) with
            | some r => some r
            | none => searchSizeUnit rest) from rfl] at h
    cases hm : matchTail (a :: rest) with
    | some r =>
      obtain ⟨r2, r3⟩ := r
      rw [hm] at h
      have h3 : r3 = g3 := by
        injection h with h2
        exact congrArg (fun t => t.2) h2
      subst h3
      exact matchTail_shape hm
    | none =>
      rw [hm] at h
      exact ih h

theorem strIsBytes_of_bB {c : Char} (r : List Char) (hb : isbB c = true) :
    ∃ b, strIsBytes (c :: r) = some b := by
  have hc : c = 'b' ∨ c = 'B' := by simpa [isbB] using hb
  unfold strIsBytes
  split_ifs
  · exact ⟨true, rfl⟩
  · exact ⟨false, rfl⟩
  · rcases hc with rfl | rfl
    · exact ⟨false, rfl⟩
    · exact ⟨true, rfl⟩

theorem sizeFinish_no_unknown (num : ℚ) (ms : List Char) {c : Char} (r : List Char)
    (hb : isbB c = true) (m : Bool) :
    isUnknownBitsBytesErr (sizeFinish num ms (c :: r) m) = false := by
  obtain ⟨b, hsb⟩ := strIsBytes_of_bB r hb
  unfold sizeFinish
  cases hmo : (if ms.isEmpty then some (1 : ℚ)
      else
        match ms with
        | [c] => multMap c
        | _ => none) with
  | none => rfl
  | some mult =>
    rw [hsb]
    cases b <;> rfl

/-- C10: the `Unable to determine if bits or bytes were specified` branch
of `size` is unreachable: on both input paths the unit capture starts with
`b`/`B` by construction of the regexes, so `_str_is_bytes` never returns
the unknown result. -/
theorem c10_unknown_bits_bytes_unreachable (inp : SizeInput) (m : Bool) :
    isUnknownBitsBytesErr (size inp m) = false := by
  cases inp with
  | str s =>
    simp only [size]
    cases hs : searchSize s with
    | none => rfl
    | some g =>
      obtain ⟨g1, g2, g3⟩ := g
      obtain ⟨c, r, rfl, hb⟩ := searchSize_shape hs
      cases hf : pyFloatOfGroup g1 with
      | none => simp [hf, isUnknownBitsBytesErr]
      | some num => simpa [hf] using sizeFinish_no_unknown num g2 r hb m
  | num v u =>
    cases u with
    | none => rfl
    | some unit =>
      simp only [size]
      cases hs : searchSizeUnit unit with
      | none => rfl
      | some g =>
        obtain ⟨g2, g3⟩ := g
        obtain ⟨c, r, rfl, hb⟩ := searchSizeUnit_shape hs
        exact sizeFinish_no_unknown v g2 r hb m

/-- C9: the `metric` flag is inert.  Stated as a two-run noninterference
property: `inspect_bytes` and `size` produce identical observable output
with `metric = True` and `metric = False`, for every input.  (In the
source the parameter is bound but never read.) -/
theorem c9_metric_flag_inert (n : ℚ) (inp : SizeInput) :
    inspect_bytes n true = inspect_bytes n false ∧ size inp true = size inp false :=
  ⟨rfl, rfl⟩

/-- The bits-branch contract of C6, phrased on `size`'s result: whenever a
call succeeds and classified its input as bits, the byte count handed to
`inspect_bytes` is `multiplier * magnitude / 8`. -/
def bitsPathDividesBy8 (r : Except SizeErr SizeOutput) : Prop :=
  match r with
  | Except.ok out =>
    out.interpUnit = ['b', 'i', 't', 's'] → out.numBytes = out.mult * out.rawNum / 8
  | Except.error _ => True

theorem bitsPath_sizeFinish (num : ℚ) (ms g3 : List Char) (m : Bool) :
    bitsPathDividesBy8 (sizeFinish num ms g3 m) := by
  unfold sizeFinish
  cases hmo : (if ms.isEmpty then some (1 : ℚ)
      else
        match ms with
        | [c] => multMap c
        | _ => none) with
  | none => trivial
  | some mult =>
    cases hsb : strIsBytes g3 with
    | none => trivial
    | some b =>
      cases b with
      | true =>
        intro hcon
        simp at hcon
      | false =>
        intro _
        rfl

/-- C6: `size("1KB")` computes a byte-equivalent of exactly 1024 bytes
(`K = 0x400`, binary-multiple kilo); and on every input classified as
bits, the byte-equivalent passed to `inspect_bytes` is
`multiplier * magnitude / 8` (float division, exact here). -/
theorem c6_size_byte_equivalents :
    Except.map SizeOutput.numBytes (size (SizeInput.str ['1', 'K', 'B']) false)
        = Except.ok 1024
      ∧ ∀ (inp : SizeInput) (m : Bool), bitsPathDividesBy8 (size inp m) := by
  constructor
  · have h : Except.map SizeOutput.numBytes (size (SizeInput.str ['1', 'K', 'B']) false)
        = Except.ok (K * (((1 : Nat) : ℚ) + ((0 : Nat) : ℚ) / 10 ^ (0 : Nat))) := rfl
    rw [h]
    norm_num [K]
  · intro inp m
    cases inp with
    | str s =>
      simp only [size]
      cases searchSize s with
      | none => trivial
      | some g =>
        obtain ⟨g1, g2, g3⟩ := g
        show bitsPathDividesBy8
          (match pyFloatOfGroup g1 with
            | none => Except.error SizeErr.floatValueError
            | some num => sizeFinish num g2 g3 m)
        cases pyFloatOfGroup g1 with
        | none => trivial
        | some num => exact bitsPath_sizeFinish num g2 g3 m
    | num v u =>
      cases u with
      | none => trivial
      | some unit =>
        simp only [size]
        cases searchSizeUnit unit with
        | none => trivial
        | some g =>
          obtain ⟨g2, g3⟩ := g
          show bitsPathDividesBy8 (sizeFinish v g2 g3 m)
          exact bitsPath_sizeFinish v g2 g3 m
